import Mathlib

/-!
Verification of the photon-cli path tracer core (src/math.rs, src/scene.rs,
src/renderer.rs) against its natural-language specification.

Modelling conventions for the shallow embedding:
* `f64` values are modelled as exact rationals (`ℚ`).  `f64::sqrt` is
  modelled by `Rat.sqrt`, which agrees with the source exactly on perfect
  squares (all concrete inputs used in witnesses are chosen so that every
  square root taken is exact).  Division is ℚ division (total, `x / 0 = 0`).
* The slab test `Aabb::hit` relies on IEEE signed-infinity arithmetic
  (`1.0 / 0.0 = +inf`, `0.0 * inf = NaN`, NaN-ignoring `f64::min/max`,
  all-false NaN comparisons).  Those operations are modelled faithfully by
  the extended scalar type `FP` below.
* `f64::sin` (used only by the Checkerboard material) is transcendental; it
  is threaded through as an explicit function parameter `sinQ`.
* The mutable random generator threaded through scattering is modelled as a
  pair of streams plus cursors (`Rng`); `random_in_unit_sphere`'s rejection
  loop is modelled by the stream directly supplying the accepted sample.
* Rust panics (`BvhNode::build` on an empty list) are modelled as `none`.
-/

/-- Extended scalar mirroring the IEEE `f64` special values that the slab
test in `Aabb::hit` depends on: NaN, the two infinities, and finite values
(modelled as exact rationals). -/
inductive FP where
  | nan : FP
  | pinf : FP
  | ninf : FP
  | fin (q : ℚ) : FP
deriving DecidableEq

/-- IEEE `<=`: any comparison involving NaN is false; `-inf <= x <= +inf`. -/
def FP.le : FP → FP → Bool
  | .nan, _ => false
  | _, .nan => false
  | .ninf, _ => true
  | _, .ninf => false
  | _, .pinf => true
  | .pinf, _ => false
  | .fin a, .fin b => a ≤ b

/-- IEEE `<`: any comparison involving NaN is false. -/
def FP.lt : FP → FP → Bool
  | .nan, _ => false
  | _, .nan => false
  | .ninf, .ninf => false
  | .ninf, _ => true
  | _, .ninf => false
  | .pinf, _ => false
  | .fin _, .pinf => true
  | .fin a, .fin b => a < b

/-- Rust `f64::max`: returns the other operand when one is NaN, otherwise the
greater value. -/
def FP.rmax (a b : FP) : FP :=
  match a, b with
  | .nan, b => b
  | a, .nan => a
  | a, b => if FP.le a b then b else a

/-- Rust `f64::min`: returns the other operand when one is NaN, otherwise the
smaller value. -/
def FP.rmin (a b : FP) : FP :=
  match a, b with
  | .nan, b => b
  | a, .nan => a
  | a, b => if FP.le a b then a else b

/-- Multiplication of a finite value by an extended scalar, with the IEEE
rules `0 * inf = NaN` and sign propagation through infinities. -/
def FP.mulQ (q : ℚ) : FP → FP
  | .nan => .nan
  | .fin r => .fin (q * r)
  | .pinf => if 0 < q then .pinf else if q < 0 then .ninf else .nan
  | .ninf => if 0 < q then .ninf else if q < 0 then .pinf else .nan

/-- IEEE reciprocal of a finite direction component: `1.0 / 0.0 = +inf`
(rational inputs carry no negative zero). -/
def FP.inv (d : ℚ) : FP :=
  if d = 0 then .pinf else .fin (1 / d)

/-- The affinely extended rationals used to transfer order reasoning about
non-NaN `FP` values to a linear order. -/
abbrev QInf := WithBot (WithTop ℚ)

/-- Order embedding of `FP` used for *lower* slab bounds: NaN maps to `⊥`,
matching the fact that a NaN slab bound imposes no lower constraint. -/
def FP.toE : FP → QInf
  | .nan => ⊥
  | .ninf => ⊥
  | .pinf => ((⊤ : WithTop ℚ) : QInf)
  | .fin q => ((q : WithTop ℚ) : QInf)

/-- Order embedding of `FP` used for *upper* slab bounds: NaN maps to `⊤`,
matching the fact that a NaN slab bound imposes no upper constraint. -/
def FP.toEHi : FP → QInf
  | .nan => ((⊤ : WithTop ℚ) : QInf)
  | .ninf => ⊥
  | .pinf => ((⊤ : WithTop ℚ) : QInf)
  | .fin q => ((q : WithTop ℚ) : QInf)

-- ─── Vec3 / Ray ─────────────────────────────────────────────────────────────

/-- The 3-component vector of `src/math.rs` (positions, directions, colors),
with `f64` fields modelled as `ℚ`. -/
structure Vec3 where
  x : ℚ
  y : ℚ
  z : ℚ
deriving DecidableEq

def Vec3.zero : Vec3 := ⟨0, 0, 0⟩

def Vec3.ones : Vec3 := ⟨1, 1, 1⟩

def Vec3.add (a b : Vec3) : Vec3 := ⟨a.x + b.x, a.y + b.y, a.z + b.z⟩

def Vec3.sub (a b : Vec3) : Vec3 := ⟨a.x - b.x, a.y - b.y, a.z - b.z⟩

def Vec3.neg (a : Vec3) : Vec3 := ⟨-a.x, -a.y, -a.z⟩

/-- Scaling `v * t` (`Mul<f64> for Vec3`). -/
def Vec3.smul (a : Vec3) (t : ℚ) : Vec3 := ⟨a.x * t, a.y * t, a.z * t⟩

/-- Division by a scalar (`Div<f64> for Vec3`, written `v * (1/t)` in the
source). -/
def Vec3.divs (a : Vec3) (t : ℚ) : Vec3 :=
  ⟨a.x * (1 / t), a.y * (1 / t), a.z * (1 / t)⟩

def Vec3.lengthSquared (a : Vec3) : ℚ := a.x * a.x + a.y * a.y + a.z * a.z

/-- Model of `Vec3::length`, with `f64::sqrt` modelled by `Rat.sqrt`. -/
def Vec3.length (a : Vec3) : ℚ := Rat.sqrt a.lengthSquared

/-- Model of `Vec3::normalized`: `self / self.length()`. -/
def Vec3.normalized (a : Vec3) : Vec3 := a.divs a.length

def Vec3.dot (a b : Vec3) : ℚ := a.x * b.x + a.y * b.y + a.z * b.z

def Vec3.cross (a b : Vec3) : Vec3 :=
  ⟨a.y * b.z - a.z * b.y, a.z * b.x - a.x * b.z, a.x * b.y - a.y * b.x⟩

/-- Model of `Vec3::reflect`: `I - 2·dot(I, N)·N`. -/
def Vec3.reflect (a normal : Vec3) : Vec3 :=
  a.sub ((normal.smul 2).smul (a.dot normal))

/-- Model of `Vec3::refract` (Snell's law); `None` signals total internal reflection. -/
def Vec3.refract (a normal : Vec3) (etaRatio : ℚ) : Option Vec3 :=
  let cosTheta := min ((Vec3.neg a).dot normal) 1
  let rPerp := (a.add (normal.smul cosTheta)).smul etaRatio
  let discriminant := 1 - rPerp.lengthSquared
  if discriminant < 0 then none
  else
    let rParallel := normal.smul (-(Rat.sqrt discriminant))
    some (rPerp.add rParallel)

/-- Component-wise (Hadamard) product. -/
def Vec3.hadamard (a b : Vec3) : Vec3 := ⟨a.x * b.x, a.y * b.y, a.z * b.z⟩

/-- Model of `Vec3::lerp`: `self·(1-t) + other·t`. -/
def Vec3.lerp (a b : Vec3) (t : ℚ) : Vec3 :=
  (a.smul (1 - t)).add (b.smul t)

/-- Rust `f64::clamp(lo, hi)` on rationals. -/
def qclamp (x lo hi : ℚ) : ℚ := min (max x lo) hi

/-- Model of `Vec3::saturate`: each channel clamped to `[0, 1]`. -/
def Vec3.saturate (a : Vec3) : Vec3 :=
  ⟨qclamp a.x 0 1, qclamp a.y 0 1, qclamp a.z 0 1⟩

/-- Model of `Vec3::near_zero`: all components below `1e-8` in magnitude. -/
def Vec3.nearZero (a : Vec3) : Bool :=
  |a.x| < 1 / 100000000 ∧ |a.y| < 1 / 100000000 ∧ |a.z| < 1 / 100000000

/-- Model of `Vec3` component indexing (`Index<usize>`); indices above 2 are
unreachable in the source (they panic). -/
def Vec3.nth (a : Vec3) : ℕ → ℚ
  | 0 => a.x
  | 1 => a.y
  | 2 => a.z
  | _ => 0

/-- A parametric ray `origin + t·direction` (src/math.rs). -/
structure Ray where
  origin : Vec3
  direction : Vec3
deriving DecidableEq

/-- Model of `Ray::at`: evaluates the ray at parameter `t`. -/
def Ray.at (r : Ray) (t : ℚ) : Vec3 := r.origin.add (r.direction.smul t)

-- ─── Axis-aligned bounding box ──────────────────────────────────────────────

/-- Axis-aligned bounding box (src/math.rs). -/
structure Aabb where
  min : Vec3
  max : Vec3
deriving DecidableEq

/-- One pass of the slab loop in `Aabb::hit` over the remaining axes,
carrying the running parameter interval.  Mirrors the source exactly,
including the IEEE reciprocal/NaN behaviour via `FP`. -/
def slabFold (b : Aabb) (ray : Ray) : List ℕ → FP → FP → Bool
  | [], _, _ => true
  | axis :: rest, tmin, tmax =>
    let invD := FP.inv (ray.direction.nth axis)
    let t0 := FP.mulQ (b.min.nth axis - ray.origin.nth axis) invD
    let t1 := FP.mulQ (b.max.nth axis - ray.origin.nth axis) invD
    let lo := if FP.lt invD (.fin 0) then t1 else t0
    let hi := if FP.lt invD (.fin 0) then t0 else t1
    let tmin' := FP.rmax lo tmin
    let tmax' := FP.rmin hi tmax
    if FP.le tmax' tmin' then false else slabFold b ray rest tmin' tmax'

/-- Model of `Aabb::hit`: slab-method ray/box intersection over the three axes. -/
def Aabb.hit (b : Aabb) (ray : Ray) (tmin : ℚ) (tmax : FP) : Bool :=
  slabFold b ray [0, 1, 2] (.fin tmin) tmax

/-- Model of `Aabb::surrounding`: componentwise min/max envelope of two boxes. -/
def Aabb.surrounding (a b : Aabb) : Aabb :=
  ⟨⟨Min.min a.min.x b.min.x, Min.min a.min.y b.min.y, Min.min a.min.z b.min.z⟩,
   ⟨Max.max a.max.x b.max.x, Max.max a.max.y b.max.y, Max.max a.max.z b.max.z⟩⟩

/-- Model of `Aabb::longest_axis`: `0` when `dx` strictly exceeds both others, else
`1` when `dy` strictly exceeds `dz`, else `2`. -/
def Aabb.longestAxis (b : Aabb) : ℕ :=
  let dx := b.max.x - b.min.x
  let dy := b.max.y - b.min.y
  let dz := b.max.z - b.min.z
  if dx > dy ∧ dx > dz then 0 else if dy > dz then 1 else 2

/-- Extent of a box along an axis, used to state the `longest_axis` claim. -/
def Aabb.extent (b : Aabb) : ℕ → ℚ
  | 0 => b.max.x - b.min.x
  | 1 => b.max.y - b.min.y
  | _ => b.max.z - b.min.z

-- ─── Materials and hit records ──────────────────────────────────────────────

/-- The material variants of src/scene.rs as a tagged sum (the Rust trait
objects dispatch over exactly these six implementations). -/
inductive Material where
  | lambertian (albedo : Vec3)
  | metal (albedo : Vec3) (fuzz : ℚ)
  | dielectric (ior : ℚ)
  | emissive (emitColor : Vec3) (intensity : ℚ)
  | checkerboard (colorA colorB : Vec3) (scale : ℚ)
  | gradient (colorA colorB : Vec3) (axis : Vec3)
deriving DecidableEq

/-- Model of `Metal::new`: clamps the fuzz parameter via `fuzz.min(1.0)`. -/
def Metal.new (albedo : Vec3) (fuzz : ℚ) : Material :=
  .metal albedo (Min.min fuzz 1)

/-- Stored fuzz field of a metal material (0 for other variants). -/
def Material.fuzzOf : Material → ℚ
  | .metal _ f => f
  | _ => 0

/-- Model of `GradientMaterial::new` normalizes the axis before storing it. -/
def GradientMaterial.new (colorA colorB : Vec3) (axis : Vec3) : Material :=
  .gradient colorA colorB axis.normalized

/-- Transient intersection result (src/scene.rs `HitRecord`); the material
reference is carried by value in the model. -/
structure HitRecord where
  point : Vec3
  normal : Vec3
  t : ℚ
  frontFace : Bool
  material : Material
deriving DecidableEq

/-- Builds a `HitRecord` and applies `set_face_normal`: the stored normal is
flipped against the incoming ray and `front_face` records the side. -/
def mkHitRecord (ray : Ray) (point : Vec3) (outwardNormal : Vec3) (t : ℚ)
    (material : Material) : HitRecord :=
  let front := ray.direction.dot outwardNormal < 0
  { point := point
    normal := if front then outwardNormal else outwardNormal.neg
    t := t
    frontFace := front
    material := material }

/-- Model of the mutable random generator threaded through scattering: one
stream of `gen()` draws and one stream of accepted `random_in_unit_sphere`
samples, with cursors recording how much has been consumed. -/
structure Rng where
  qs : ℕ → ℚ
  vs : ℕ → Vec3
  qi : ℕ
  vi : ℕ

/-- Model of `rng.gen::<f64>()`: next scalar draw. -/
def Rng.genQ (r : Rng) : ℚ × Rng :=
  (r.qs r.qi, ⟨r.qs, r.vs, r.qi + 1, r.vi⟩)

/-- Model of `Vec3::random_in_unit_sphere`: the rejection loop is modelled by the
stream directly supplying the accepted sample. -/
def Rng.genSphere (r : Rng) : Vec3 × Rng :=
  (r.vs r.vi, ⟨r.qs, r.vs, r.qi, r.vi + 1⟩)

/-- Model of `Vec3::random_unit_vector`: a unit-sphere sample, normalized. -/
def Rng.genUnit (r : Rng) : Vec3 × Rng :=
  let (v, r') := r.genSphere
  (v.normalized, r')

/-- Model of `Dielectric::schlick_reflectance`. -/
def schlickReflectance (cosine refIdx : ℚ) : ℚ :=
  let r0 := ((1 - refIdx) / (1 + refIdx)) ^ 2
  r0 + (1 - r0) * (1 - cosine) ^ 5

/-- Model of `Checkerboard::pattern_at`, with `f64::sin` supplied as `sinQ`. -/
def patternAt (sinQ : ℚ → ℚ) (colorA colorB : Vec3) (scale : ℚ)
    (point : Vec3) : Vec3 :=
  let sines := sinQ (scale * point.x) * sinQ (scale * point.y) *
    sinQ (scale * point.z)
  if sines < 0 then colorA else colorB

/-- Model of `Material::scatter` for each variant, mirroring the six `impl Material`
blocks of src/scene.rs; returns the optional (scattered ray, attenuation)
plus the advanced generator. -/
def Material.scatter (sinQ : ℚ → ℚ) (m : Material) (ray : Ray)
    (hit : HitRecord) (rng : Rng) : Option (Ray × Vec3) × Rng :=
  match m with
  | .lambertian albedo =>
    let (u, rng') := rng.genUnit
    let d := hit.normal.add u
    let scatterDir := if d.nearZero then hit.normal else d
    (some (⟨hit.point, scatterDir⟩, albedo), rng')
  | .metal albedo fuzz =>
    let reflected := (ray.direction.normalized).reflect hit.normal
    let (v, rng') := rng.genSphere
    let scattered : Ray := ⟨hit.point, reflected.add (v.smul fuzz)⟩
    if scattered.direction.dot hit.normal > 0 then
      (some (scattered, albedo), rng')
    else (none, rng')
  | .dielectric ior =>
    let etaRatio := if hit.frontFace then 1 / ior else ior
    let unitDir := ray.direction.normalized
    let cosTheta := Min.min ((unitDir.neg).dot hit.normal) 1
    let sinTheta := Rat.sqrt (1 - cosTheta * cosTheta)
    let cannotRefract := etaRatio * sinTheta > 1
    let (q, rng') := rng.genQ
    let direction :=
      if cannotRefract ∨ schlickReflectance cosTheta etaRatio > q then
        unitDir.reflect hit.normal
      else
        (unitDir.refract hit.normal etaRatio).getD (unitDir.reflect hit.normal)
    (some (⟨hit.point, direction⟩, Vec3.ones), rng')
  | .emissive _ _ => (none, rng)
  | .checkerboard colorA colorB scale =>
    let (u, rng') := rng.genUnit
    let d := hit.normal.add u
    let scatterDir := if d.nearZero then hit.normal else d
    (some (⟨hit.point, scatterDir⟩, patternAt sinQ colorA colorB scale hit.point),
      rng')
  | .gradient colorA colorB axis =>
    let (u, rng') := rng.genUnit
    let d := hit.normal.add u
    let scatterDir := if d.nearZero then hit.normal else d
    let t := qclamp (hit.normal.dot axis * (1 / 2) + 1 / 2) 0 1
    (some (⟨hit.point, scatterDir⟩, colorA.lerp colorB t), rng')

/-- Model of `Material::emitted`: zero except for the emissive variant. -/
def Material.emitted : Material → Vec3
  | .emissive c intensity => c.smul intensity
  | _ => Vec3.zero

-- ─── Hittable interface, primitives ─────────────────────────────────────────

/-- The `Hittable` trait as an interface value: a hit query over
`(t_min, t_max]`-style bounds plus a bounding box. -/
structure HittableI where
  hit : Ray → ℚ → FP → Option HitRecord
  bbox : Aabb

/-- Out-of-range test `t < t_min || t > t_max` shared by all primitives. -/
def outOfRange (t tmin : ℚ) (tmax : FP) : Bool :=
  decide (t < tmin) || FP.lt tmax (.fin t)

/-- The `Sphere` primitive. -/
structure Sphere where
  center : Vec3
  radius : ℚ
  material : Material

/-- Model of `Sphere::hit`: quadratic-equation intersection, trying the smaller root
first, then the larger. -/
def Sphere.hit (s : Sphere) (ray : Ray) (tmin : ℚ) (tmax : FP) :
    Option HitRecord :=
  let oc := ray.origin.sub s.center
  let a := ray.direction.lengthSquared
  let halfB := oc.dot ray.direction
  let c := oc.lengthSquared - s.radius * s.radius
  let discriminant := halfB * halfB - a * c
  if discriminant < 0 then none
  else
    let sqrtd := Rat.sqrt discriminant
    let root1 := (-halfB - sqrtd) / a
    let root := if outOfRange root1 tmin tmax then (-halfB + sqrtd) / a
      else root1
    if outOfRange root tmin tmax then none
    else
      let point := ray.at root
      let outwardNormal := (point.sub s.center).divs s.radius
      some (mkHitRecord ray point outwardNormal root s.material)

/-- Model of `Sphere::bounding_box`. -/
def Sphere.boundingBox (s : Sphere) : Aabb :=
  let r : Vec3 := ⟨|s.radius|, |s.radius|, |s.radius|⟩
  ⟨s.center.sub r, s.center.add r⟩

/-- The infinite `Plane` primitive (fields as stored; `Plane::new`
normalizes the normal). -/
structure Plane where
  point : Vec3
  normal : Vec3
  material : Material

/-- Model of `Plane::new` normalizes the supplied normal. -/
def Plane.new (point normal : Vec3) (material : Material) : Plane :=
  ⟨point, normal.normalized, material⟩

/-- Model of `Plane::hit`: ray/plane intersection with a near-parallel guard. -/
def Plane.hit (p : Plane) (ray : Ray) (tmin : ℚ) (tmax : FP) :
    Option HitRecord :=
  let denom := ray.direction.dot p.normal
  if |denom| < 1 / 100000000 then none
  else
    let t := (p.point.sub ray.origin).dot p.normal / denom
    if outOfRange t tmin tmax then none
    else some (mkHitRecord ray (ray.at t) p.normal t p.material)

/-- Model of `Plane::bounding_box`: the fixed `[-1e4, 1e4]³` box. -/
def Plane.boundingBox (_ : Plane) : Aabb :=
  ⟨⟨-10000, -10000, -10000⟩, ⟨10000, 10000, 10000⟩⟩

/-- The `Triangle` primitive. -/
structure Triangle where
  v0 : Vec3
  v1 : Vec3
  v2 : Vec3
  material : Material

/-- Model of `Triangle::hit`: the Möller–Trumbore algorithm. -/
def Triangle.hit (tr : Triangle) (ray : Ray) (tmin : ℚ) (tmax : FP) :
    Option HitRecord :=
  let edge1 := tr.v1.sub tr.v0
  let edge2 := tr.v2.sub tr.v0
  let h := ray.direction.cross edge2
  let a := edge1.dot h
  if |a| < 1 / 100000000 then none
  else
    let f := 1 / a
    let s := ray.origin.sub tr.v0
    let u := f * s.dot h
    if ¬ (0 ≤ u ∧ u ≤ 1) then none
    else
      let q := s.cross edge1
      let v := f * ray.direction.dot q
      if v < 0 ∨ u + v > 1 then none
      else
        let t := f * edge2.dot q
        if outOfRange t tmin tmax then none
        else
          let outwardNormal := (edge1.cross edge2).normalized
          some (mkHitRecord ray (ray.at t) outwardNormal t tr.material)

/-- Model of `Triangle::bounding_box`: vertex envelope padded by `1e-4`. -/
def Triangle.boundingBox (tr : Triangle) : Aabb :=
  let eps : ℚ := 1 / 10000
  ⟨⟨Min.min (Min.min tr.v0.x tr.v1.x) tr.v2.x - eps,
    Min.min (Min.min tr.v0.y tr.v1.y) tr.v2.y - eps,
    Min.min (Min.min tr.v0.z tr.v1.z) tr.v2.z - eps⟩,
   ⟨Max.max (Max.max tr.v0.x tr.v1.x) tr.v2.x + eps,
    Max.max (Max.max tr.v0.y tr.v1.y) tr.v2.y + eps,
    Max.max (Max.max tr.v0.z tr.v1.z) tr.v2.z + eps⟩⟩

/-- The `Quad` primitive, with the derived plane data that `Quad::new`
precomputes and stores. -/
structure Quad where
  origin : Vec3
  edgeU : Vec3
  edgeV : Vec3
  normal : Vec3
  d : ℚ
  w : Vec3
  material : Material

/-- Model of `Quad::new`: precomputes the plane normal, offset `d`, and `w`. -/
def Quad.new (origin edgeU edgeV : Vec3) (material : Material) : Quad :=
  let n := edgeU.cross edgeV
  let normal := n.normalized
  ⟨origin, edgeU, edgeV, normal, normal.dot origin, n.divs (n.dot n), material⟩

/-- Model of `Quad::hit`: plane intersection plus the `(alpha, beta) ∈ [0,1]²`
parametric bounds check. -/
def Quad.hit (q : Quad) (ray : Ray) (tmin : ℚ) (tmax : FP) :
    Option HitRecord :=
  let denom := q.normal.dot ray.direction
  if |denom| < 1 / 100000000 then none
  else
    let t := (q.d - q.normal.dot ray.origin) / denom
    if outOfRange t tmin tmax then none
    else
      let intersection := ray.at t
      let planarHitpt := intersection.sub q.origin
      let alpha := q.w.dot (planarHitpt.cross q.edgeV)
      let beta := q.w.dot (q.edgeU.cross planarHitpt)
      if ¬ (0 ≤ alpha ∧ alpha ≤ 1) ∨ ¬ (0 ≤ beta ∧ beta ≤ 1) then none
      else some (mkHitRecord ray intersection q.normal t q.material)

/-- Model of `Quad::bounding_box`: corner envelope padded by `1e-4`. -/
def Quad.boundingBox (q : Quad) : Aabb :=
  let eps : ℚ := 1 / 10000
  let p0 := q.origin
  let p1 := q.origin.add q.edgeU
  let p2 := q.origin.add q.edgeV
  let p3 := (q.origin.add q.edgeU).add q.edgeV
  ⟨⟨Min.min (Min.min (Min.min p0.x p1.x) p2.x) p3.x - eps,
    Min.min (Min.min (Min.min p0.y p1.y) p2.y) p3.y - eps,
    Min.min (Min.min (Min.min p0.z p1.z) p2.z) p3.z - eps⟩,
   ⟨Max.max (Max.max (Max.max p0.x p1.x) p2.x) p3.x + eps,
    Max.max (Max.max (Max.max p0.y p1.y) p2.y) p3.y + eps,
    Max.max (Max.max (Max.max p0.z p1.z) p2.z) p3.z + eps⟩⟩

/-- The `Disk` primitive (`Disk::new` normalizes the normal). -/
structure Disk where
  center : Vec3
  normal : Vec3
  radius : ℚ
  material : Material

/-- Model of `Disk::new` normalizes the supplied normal. -/
def Disk.new (center normal : Vec3) (radius : ℚ) (material : Material) :
    Disk :=
  ⟨center, normal.normalized, radius, material⟩

/-- Model of `Disk::hit`: plane intersection plus the radial distance check. -/
def Disk.hit (dk : Disk) (ray : Ray) (tmin : ℚ) (tmax : FP) :
    Option HitRecord :=
  let denom := ray.direction.dot dk.normal
  if |denom| < 1 / 100000000 then none
  else
    let t := (dk.center.sub ray.origin).dot dk.normal / denom
    if outOfRange t tmin tmax then none
    else
      let point := ray.at t
      let distSq := (point.sub dk.center).lengthSquared
      if distSq > dk.radius * dk.radius then none
      else some (mkHitRecord ray point dk.normal t dk.material)

/-- Model of `Disk::bounding_box`. -/
def Disk.boundingBox (dk : Disk) : Aabb :=
  let r : Vec3 := ⟨dk.radius, dk.radius, dk.radius⟩
  ⟨dk.center.sub r, dk.center.add r⟩

/-- The five concrete geometry primitives of the repository, as used behind
the `Hittable` trait. -/
inductive Primitive where
  | sphere (s : Sphere)
  | plane (p : Plane)
  | triangle (t : Triangle)
  | quad (q : Quad)
  | disk (d : Disk)

/-- Trait dispatch for `Hittable::hit`. -/
def Primitive.hit : Primitive → Ray → ℚ → FP → Option HitRecord
  | .sphere s => s.hit
  | .plane p => p.hit
  | .triangle t => t.hit
  | .quad q => q.hit
  | .disk d => d.hit

/-- Trait dispatch for `Hittable::bounding_box`. -/
def Primitive.boundingBox : Primitive → Aabb
  | .sphere s => s.boundingBox
  | .plane p => p.boundingBox
  | .triangle t => t.boundingBox
  | .quad q => q.boundingBox
  | .disk d => d.boundingBox

/-- Coercion of a primitive to a `Hittable` trait object. -/
def Primitive.toHittable (p : Primitive) : HittableI :=
  ⟨p.hit, p.boundingBox⟩

-- ─── Bounding volume hierarchy ──────────────────────────────────────────────

/-- Model of `BvhNode`: a leaf wrapping one hittable, or an interior node with two
children; each node caches its bounding box. -/
inductive BvhNode where
  | leaf (object : HittableI) (bbox : Aabb)
  | interior (left right : BvhNode) (bbox : Aabb)

/-- Model of `BvhNode::bounding_box_inner`. -/
def BvhNode.boundingBoxInner : BvhNode → Aabb
  | .leaf _ bbox => bbox
  | .interior _ _ bbox => bbox

/-- Stable insertion sort by a rational key, modelling Rust's stable
`sort_by` with the `partial_cmp` comparator of `BvhNode::build`. -/
def insertByKey {α : Type} (key : α → ℚ) (x : α) : List α → List α
  | [] => [x]
  | y :: ys => if key y < key x then y :: insertByKey key x ys else x :: y :: ys

/-- Stable sort by key (see `insertByKey`). -/
def sortByKey {α : Type} (key : α → ℚ) : List α → List α
  | [] => []
  | x :: xs => insertByKey key x (sortByKey key xs)

/-- The sort key of `BvhNode::build`: the sum of the object's box bounds
along the chosen axis (a centroid proxy). -/
def bvhSortKey (axis : ℕ) (o : HittableI) : ℚ :=
  o.bbox.min.nth axis + o.bbox.max.nth axis

/-- The split axis of `BvhNode::build`: the longest axis of the enclosing
box of all the objects (computed by `reduce` over the object boxes). -/
def bvhAxis (o : HittableI) (rest : List HittableI) : ℕ :=
  (rest.foldl (fun acc ob => Aabb.surrounding acc ob.bbox)
    o.bbox).longestAxis

/-- Combines the two recursive `BvhNode::build` calls into the interior
node (the recursive calls cannot fail in the source, which panics only on
an empty list; the model threads the `Option`). -/
def buildStep (l r : Option BvhNode) : Option BvhNode :=
  l.bind fun lt => r.map fun rt =>
    .interior lt rt (Aabb.surrounding lt.boundingBoxInner rt.boundingBoxInner)

/-- Model of `BvhNode::build` with explicit recursion fuel (the recursion halves the
list, so `objects.length` fuel suffices); the empty-list panic is modelled
as `none`. -/
def buildFuel : ℕ → List HittableI → Option BvhNode
  | 0, _ => none
  | _ + 1, [] => none
  | _ + 1, [o] => some (.leaf o o.bbox)
  | fuel + 1, o :: rest =>
    let sorted := sortByKey (bvhSortKey (bvhAxis o rest)) (o :: rest)
    let mid := (o :: rest).length / 2
    buildStep (buildFuel fuel (sorted.take mid))
      (buildFuel fuel (sorted.drop mid))

/-- Model of `BvhNode::build`. -/
def BvhNode.build (objects : List HittableI) : Option BvhNode :=
  buildFuel objects.length objects

/-- Model of `BvhNode::hit`: prune by the node box, then delegate (leaf) or probe
left first and the right subtree with `t_max` tightened to the left hit. -/
def BvhNode.hit : BvhNode → Ray → ℚ → FP → Option HitRecord
  | .leaf o bbox, ray, tmin, tmax =>
    if Aabb.hit bbox ray tmin tmax then o.hit ray tmin tmax else none
  | .interior l r bbox, ray, tmin, tmax =>
    if Aabb.hit bbox ray tmin tmax then
      let hitLeft := l.hit ray tmin tmax
      let far := match hitLeft with
        | some h => FP.fin h.t
        | none => tmax
      match r.hit ray tmin far with
      | some h => some h
      | none => hitLeft
    else none

/-- Building the BVH and then querying it, as one operation (the
composition the BVH-correctness property talks about). -/
def bvhBuildHit (objects : List HittableI) (ray : Ray) (tmin : ℚ)
    (tmax : FP) : Option HitRecord :=
  match BvhNode.build objects with
  | some t => t.hit ray tmin tmax
  | none => none

/-- Brute-force reference: call `hit` on every primitive with the full
interval and keep the record with the smallest `t` (first wins on ties). -/
def bruteForce (objects : List HittableI) (ray : Ray) (tmin : ℚ)
    (tmax : FP) : Option HitRecord :=
  match objects with
  | [] => none
  | o :: rest =>
    match o.hit ray tmin tmax, bruteForce rest ray tmin tmax with
    | none, b => b
    | some r, none => some r
    | some r, some b => if b.t < r.t then some b else some r

/-- Model of `BvhNode::leaf_count`. -/
def BvhNode.leafCount : BvhNode → ℕ
  | .leaf _ _ => 1
  | .interior l r _ => l.leafCount + r.leafCount

-- ─── Renderer: sky, tone mapping, path tracer ───────────────────────────────

/-- The sky model variants of src/renderer.rs. -/
inductive SkyModel where
  | gradient (horizon zenith : Vec3)
  | solid (color : Vec3)
  | black

/-- Model of `SkyModel::sample`. -/
def SkyModel.sample (s : SkyModel) (ray : Ray) : Vec3 :=
  match s with
  | .gradient horizon zenith =>
    let unitDir := ray.direction.normalized
    let t := (1 / 2) * (unitDir.y + 1)
    horizon.lerp zenith t
  | .solid color => color
  | .black => Vec3.zero

/-- The tone mapping operators of src/renderer.rs. -/
inductive ToneMapOp where
  | none
  | reinhard
  | aces

/-- The per-channel ACES filmic curve (Narkowicz approximation), clamped. -/
def acesChannel (x : ℚ) : ℚ :=
  let a : ℚ := 251 / 100
  let b : ℚ := 3 / 100
  let c : ℚ := 243 / 100
  let d : ℚ := 59 / 100
  let e : ℚ := 14 / 100
  qclamp ((x * (a * x + b)) / (x * (c * x + d) + e)) 0 1

/-- Model of `ToneMapOp::apply`. -/
def ToneMapOp.apply (op : ToneMapOp) (color : Vec3) : Vec3 :=
  match op with
  | .none => color
  | .reinhard =>
    ⟨color.x / (1 + color.x), color.y / (1 + color.y), color.z / (1 + color.z)⟩
  | .aces => ⟨acesChannel color.x, acesChannel color.y, acesChannel color.z⟩

/-- Model of `PathTracer::trace_ray` with explicit recursion fuel: the source
recursion is on `depth + 1` and stops as soon as `depth >= max_bounces`,
so any fuel of at least `max_bounces - depth` computes its value (proved in
the termination theorem below).  `t_min = 0.001`, `t_max = +infinity`. -/
def traceFuel (sinQ : ℚ → ℚ) (scene : HittableI) (sky : SkyModel)
    (maxBounces : ℕ) : ℕ → Ray → ℕ → Rng → Vec3
  | 0, _, _, _ => Vec3.zero
  | fuel + 1, ray, depth, rng =>
    if maxBounces ≤ depth then Vec3.zero
    else
      match scene.hit ray (1 / 1000) FP.pinf with
      | some hit =>
        let emitted := hit.material.emitted
        match Material.scatter sinQ hit.material ray hit rng with
        | (some (scattered, attenuation), rng') =>
          emitted.add (attenuation.hadamard
            (traceFuel sinQ scene sky maxBounces fuel scattered (depth + 1)
              rng'))
        | (none, _) => emitted
      | none => sky.sample ray

/-- Model of `PathTracer::trace_ray` at a given depth (fuel `max_bounces + 1 - depth`
always suffices). -/
def traceRay (sinQ : ℚ → ℚ) (scene : HittableI) (sky : SkyModel)
    (maxBounces : ℕ) (ray : Ray) (depth : ℕ) (rng : Rng) : Vec3 :=
  traceFuel sinQ scene sky maxBounces (maxBounces + 1 - depth) ray depth rng

-- ─── Concrete scenes and rays used in counterexamples and witnesses ─────────

/-- A simple diffuse material used by the concrete test scenes. -/
def exMat : Material := .lambertian ⟨1/2, 1/2, 1/2⟩

/-- The unit sphere at the origin. -/
def exSphere : Sphere := ⟨⟨0, 0, 0⟩, 1, exMat⟩

/-- The unit sphere as a trait object. -/
def exSphereH : HittableI := (Primitive.sphere exSphere).toHittable

/-- The plane `y = 0` (already-unit normal, so its normalization is exact). -/
def exPlane : Plane := Plane.new ⟨0, 0, 0⟩ ⟨0, 1, 0⟩ exMat

/-- The plane as a trait object. -/
def exPlaneH : HittableI := (Primitive.plane exPlane).toHittable

/-- A downward ray that crosses the plane `y = 0` at `t = 1` but passes
entirely outside the plane's `[-1e4, 1e4]³` bounding box. -/
def farRay : Ray := ⟨⟨20000, 1, 0⟩, ⟨0, -1, 0⟩⟩

/-- The unit quad-pair scene: a quad spanning `[-1,1]²` in the plane `z = 0`. -/
def exQuad1 : Quad := Quad.new ⟨-1, -1, 0⟩ ⟨2, 0, 0⟩ ⟨0, 2, 0⟩ exMat

/-- A parallel quad in the plane `z = -2`. -/
def exQuad2 : Quad := Quad.new ⟨-1, -1, -2⟩ ⟨2, 0, 0⟩ ⟨0, 2, 0⟩
  (Metal.new ⟨1, 0, 0⟩ 0)

/-- First quad as a trait object. -/
def exQuad1H : HittableI := (Primitive.quad exQuad1).toHittable

/-- Second quad as a trait object. -/
def exQuad2H : HittableI := (Primitive.quad exQuad2).toHittable

/-- A ray down the `z`-axis hitting both quads (at `t = 3` and `t = 5`). -/
def axisRay : Ray := ⟨⟨0, 0, 3⟩, ⟨0, 0, -1⟩⟩

/-- A ray from `(0,0,2)` toward the sphere, hitting it at `t = 1` and
`t = 3`. -/
def towardRay : Ray := ⟨⟨0, 0, 2⟩, ⟨0, 0, -1⟩⟩

/-- A ray pointing away from the sphere: it misses every primitive of the
one-sphere scene. -/
def missRay : Ray := ⟨⟨0, 0, 3⟩, ⟨0, 0, 1⟩⟩

/-- A concrete random-generator state (all draws zero). -/
def exRng : Rng := ⟨fun _ => 0, fun _ => ⟨1, 0, 0⟩, 0, 0⟩

-- ─── Specification predicates ───────────────────────────────────────────────

/-- Membership of a color in the unit cube `[0,1]³`. -/
def Vec3.inUnitCube (v : Vec3) : Prop :=
  0 ≤ v.x ∧ v.x ≤ 1 ∧ 0 ≤ v.y ∧ v.y ≤ 1 ∧ 0 ≤ v.z ∧ v.z ≤ 1

/-- Componentwise box inclusion (`a` inside `b`). -/
def subBox (a b : Aabb) : Prop :=
  b.min.x ≤ a.min.x ∧ b.min.y ≤ a.min.y ∧ b.min.z ≤ a.min.z ∧
  a.max.x ≤ b.max.x ∧ a.max.y ≤ b.max.y ∧ a.max.z ≤ b.max.z

/-- Soundness of a hittable's `hit` along a fixed ray and lower bound: the
reported parameter lies in the queried interval, the reported record is
stable under tightening and loosening of `t_max` (it is the nearest
intersection), and the slab test on the object's bounding box succeeds
whenever a hit is reported.  The Rust primitives satisfy these away from
degenerate tangency configurations; the BVH/scan equivalence needs them. -/
structure HitSound (o : HittableI) (ray : Ray) (tmin : ℚ) : Prop where
  range : ∀ T r, o.hit ray tmin (.fin T) = some r → tmin ≤ r.t ∧ r.t ≤ T
  shrink : ∀ T T' r, T' ≤ T → o.hit ray tmin (.fin T) = some r → r.t ≤ T' →
    o.hit ray tmin (.fin T') = some r
  grow : ∀ T T' r, T' ≤ T → o.hit ray tmin (.fin T') = some r →
    o.hit ray tmin (.fin T) = some r
  cover : ∀ T r, o.hit ray tmin (.fin T) = some r →
    Aabb.hit o.bbox ray tmin (.fin T) = true

/-- Two hittables never report hits at exactly the same parameter along the
given ray (no ties for the nearest-hit comparison). -/
def NoTie (ray : Ray) (tmin : ℚ) (o o' : HittableI) : Prop :=
  ∀ T T' r r', o.hit ray tmin (.fin T) = some r →
    o'.hit ray tmin (.fin T') = some r' → r.t ≠ r'.t

/-- The primitives stored at the leaves, in tree order. -/
def BvhNode.leaves : BvhNode → List HittableI
  | .leaf o _ => [o]
  | .interior l r _ => l.leaves ++ r.leaves

/-- Structural invariant of a built BVH along a query: every leaf object is
`HitSound` and every cached box is the leaf box resp. the surrounding box of
the children (which `BvhNode::build` establishes). -/
def BvhNode.Good (ray : Ray) (tmin : ℚ) : BvhNode → Prop
  | .leaf o bbox => HitSound o ray tmin ∧ bbox = o.bbox
  | .interior l r bbox => BvhNode.Good ray tmin l ∧ BvhNode.Good ray tmin r ∧
      bbox = Aabb.surrounding l.boundingBoxInner r.boundingBoxInner

/-- Model of `r` is a hit of some object of the list in `[tmin, T]`, of minimal
parameter among all such hits (the value the brute-force scan keeps). -/
def IsMinHit (objs : List HittableI) (ray : Ray) (tmin T : ℚ)
    (r : HitRecord) : Prop :=
  (∃ o ∈ objs, o.hit ray tmin (.fin T) = some r) ∧
  ∀ o' ∈ objs, ∀ r', o'.hit ray tmin (.fin T) = some r' → r.t ≤ r'.t

-- ─── Helper lemmas: FP order transfer ──────────────────────────────────────

theorem FP.le_iff_toE {a b : FP} (ha : a ≠ .nan) (hb : b ≠ .nan) :
    FP.le a b = true ↔ FP.toE a ≤ FP.toE b := by
  cases a <;> cases b <;>
    simp_all [FP.le, FP.toE, WithBot.coe_le_coe, WithTop.coe_le_coe]

theorem FP.lt_iff_toE {a b : FP} (ha : a ≠ .nan) (hb : b ≠ .nan) :
    FP.lt a b = true ↔ FP.toE a < FP.toE b := by
  cases a <;> cases b <;>
    simp_all [FP.lt, FP.toE, WithBot.coe_lt_coe, WithTop.coe_lt_coe,
      WithBot.bot_lt_coe, WithTop.coe_lt_top, not_top_lt, lt_self_iff_false]
  rw [← WithBot.coe_top]
  exact WithBot.coe_lt_coe.2 (WithTop.coe_lt_top _)

theorem FP.rmax_ne_nan {a b : FP} (hb : b ≠ .nan) : FP.rmax a b ≠ .nan := by
  cases a <;> cases b <;> simp_all [FP.rmax] <;> split <;> simp

theorem FP.rmin_ne_nan {a b : FP} (hb : b ≠ .nan) : FP.rmin a b ≠ .nan := by
  cases a <;> cases b <;> simp_all [FP.rmin] <;> split <;> simp

theorem FP.toE_eq_toEHi {a : FP} (ha : a ≠ .nan) : FP.toE a = FP.toEHi a := by
  cases a <;> simp_all [FP.toE, FP.toEHi]

theorem FP.toE_nan : FP.toE .nan = ⊥ := rfl

theorem FP.rmax_nan_left {b : FP} : FP.rmax .nan b = b := by cases b <;> rfl

theorem FP.rmin_nan_left {b : FP} : FP.rmin .nan b = b := by cases b <;> rfl

theorem FP.rmax_eq_ite {a b : FP} (ha : a ≠ .nan) (hb : b ≠ .nan) :
    FP.rmax a b = if FP.le a b then b else a := by
  cases a <;> cases b <;> simp_all [FP.rmax]

theorem FP.rmin_eq_ite {a b : FP} (ha : a ≠ .nan) (hb : b ≠ .nan) :
    FP.rmin a b = if FP.le a b then a else b := by
  cases a <;> cases b <;> simp_all [FP.rmin]

theorem FP.toE_rmax {a b : FP} (hb : b ≠ .nan) :
    FP.toE (FP.rmax a b) = max (FP.toE a) (FP.toE b) := by
  by_cases ha : a = .nan
  · subst ha
    rw [FP.rmax_nan_left, FP.toE_nan, max_eq_right bot_le]
  · rw [FP.rmax_eq_ite ha hb]
    rcases le_or_lt (FP.toE a) (FP.toE b) with h | h
    · rw [if_pos ((FP.le_iff_toE ha hb).2 h), max_eq_right h]
    · have hnot : ¬ FP.le a b = true := by
        rw [FP.le_iff_toE ha hb]; exact not_le.2 h
      rw [if_neg hnot, max_eq_left h.le]

theorem FP.toEHi_rmin {a b : FP} (hb : b ≠ .nan) :
    FP.toEHi (FP.rmin a b) = min (FP.toEHi a) (FP.toEHi b) := by
  by_cases ha : a = .nan
  · subst ha
    rw [FP.rmin_nan_left]
    have : FP.toEHi .nan = ((⊤ : WithTop ℚ) : QInf) := rfl
    rw [this, min_eq_right]
    cases b <;> simp [FP.toEHi, WithBot.coe_le_coe, le_top]
  · rw [FP.rmin_eq_ite ha hb]
    rcases le_or_lt (FP.toE a) (FP.toE b) with h | h
    · rw [if_pos ((FP.le_iff_toE ha hb).2 h), ← FP.toE_eq_toEHi ha,
        ← FP.toE_eq_toEHi hb, min_eq_left h]
    · have hnot : ¬ FP.le a b = true := by
        rw [FP.le_iff_toE ha hb]; exact not_le.2 h
      rw [if_neg hnot, ← FP.toE_eq_toEHi ha, ← FP.toE_eq_toEHi hb,
        min_eq_right h.le]

-- ─── C4: longest axis, tie-breaking ─────────────────────────────────────────

/-- Restatement of `Aabb::longest_axis` with the lets inlined, for case
splitting. -/
theorem Aabb.longestAxis_eq (b : Aabb) :
    b.longestAxis =
      if b.max.x - b.min.x > b.max.y - b.min.y ∧
          b.max.x - b.min.x > b.max.z - b.min.z then 0
      else if b.max.y - b.min.y > b.max.z - b.min.z then 1 else 2 := rfl

/-- C4 counterexample: the claim says equal `x`/`y` extents exceeding `z`
yield axis 0, and equal `y`/`z` extents not exceeded by `x` yield axis 1;
the code returns 1 and 2 respectively (it breaks ties toward the *later*
axis). -/
theorem c4_longest_axis_counterexample :
    Aabb.longestAxis ⟨⟨0, 0, 0⟩, ⟨2, 2, 1⟩⟩ = 1 ∧
    Aabb.longestAxis ⟨⟨0, 0, 0⟩, ⟨1, 1, 1⟩⟩ = 2 := by
  norm_num [Aabb.longestAxis]

/-- C4 (amended): `Aabb::longest_axis` returns an axis index below 3 whose
extent is the maximum of the three extents, and every axis achieving that
maximum has index at most the returned one — ties break toward the *later*
axis (z before y before x), not the earlier one. -/
theorem c4_longest_axis_max_later (b : Aabb) :
    b.longestAxis < 3 ∧
    b.extent b.longestAxis =
      Max.max (Max.max (b.extent 0) (b.extent 1)) (b.extent 2) ∧
    (∀ i, i < 3 → b.extent i = b.extent b.longestAxis → i ≤ b.longestAxis) := by
  rw [Aabb.longestAxis_eq]
  split_ifs with h1 h2
  · refine ⟨by norm_num, ?_, ?_⟩
    · simp only [Aabb.extent]
      rw [max_eq_left h1.1.le, max_eq_left h1.2.le]
    · intro i hi he
      interval_cases i
      · exact le_refl 0
      · simp only [Aabb.extent] at he
        linarith [h1.1]
      · simp only [Aabb.extent] at he
        linarith [h1.2]
  · have hxy : b.max.x - b.min.x ≤ b.max.y - b.min.y := by
      by_contra hc
      push_neg at hc
      exact h1 ⟨hc, lt_trans h2 hc⟩
    refine ⟨by norm_num, ?_, ?_⟩
    · simp only [Aabb.extent]
      rw [max_eq_right hxy, max_eq_left h2.le]
    · intro i hi he
      interval_cases i
      · exact Nat.zero_le 1
      · exact le_refl 1
      · simp only [Aabb.extent] at he
        linarith
  · push_neg at h2
    refine ⟨by norm_num, ?_, fun i hi _ => by omega⟩
    have hxz : b.max.x - b.min.x ≤ b.max.z - b.min.z := by
      by_contra hc
      push_neg at hc
      rcases lt_or_le (b.max.y - b.min.y) (b.max.x - b.min.x) with hy | hy
      · exact h1 ⟨hy, hc⟩
      · linarith
    simp only [Aabb.extent]
    rw [max_eq_right (max_le hxz h2)]

/-- C4 witness: the amended theorem applied to the concrete box
`[0,1]×[0,1]×[0,2]` with the tie query at axis 2. -/
theorem c4_longest_axis_witness :
    ((2 : ℕ) < 3 ∧
      Aabb.extent ⟨⟨0, 0, 0⟩, ⟨1, 1, 2⟩⟩ 2 =
        Aabb.extent ⟨⟨0, 0, 0⟩, ⟨1, 1, 2⟩⟩
          (Aabb.longestAxis ⟨⟨0, 0, 0⟩, ⟨1, 1, 2⟩⟩)) ∧
    (2 : ℕ) ≤ Aabb.longestAxis ⟨⟨0, 0, 0⟩, ⟨1, 1, 2⟩⟩ :=
  ⟨⟨by norm_num, by norm_num [Aabb.extent, Aabb.longestAxis]⟩,
    (c4_longest_axis_max_later ⟨⟨0, 0, 0⟩, ⟨1, 1, 2⟩⟩).2.2 2 (by norm_num)
      (by norm_num [Aabb.extent, Aabb.longestAxis])⟩

-- ─── C5: Metal::new fuzz clamp ──────────────────────────────────────────────

/-- C5 counterexample: `Metal::new` only applies `fuzz.min(1.0)`, so a
negative fuzz argument is stored unchanged and lies outside `[0, 1]`. -/
theorem c5_metal_fuzz_counterexample :
    (Metal.new ⟨1, 1, 1⟩ (-2)).fuzzOf = -2 ∧
    ¬ (0 ≤ (Metal.new ⟨1, 1, 1⟩ (-2)).fuzzOf ∧
        (Metal.new ⟨1, 1, 1⟩ (-2)).fuzzOf ≤ 1) := by
  norm_num [Metal.new, Material.fuzzOf]

/-- C5 (amended): the stored fuzz is always at most 1, and lies in `[0, 1]`
whenever the fuzz argument is non-negative. -/
theorem c5_metal_fuzz_clamped (albedo : Vec3) (fuzz : ℚ) :
    (Metal.new albedo fuzz).fuzzOf ≤ 1 ∧
    (0 ≤ fuzz → 0 ≤ (Metal.new albedo fuzz).fuzzOf) := by
  constructor
  · simp only [Metal.new, Material.fuzzOf]
    exact min_le_right fuzz 1
  · intro h
    have h0 : (0 : ℚ) ≤ Min.min fuzz 1 := le_min h zero_le_one
    simpa [Metal.new, Material.fuzzOf] using h0

/-- C5 witness: the amended theorem at albedo `(1,1,1)` and fuzz `1/2`. -/
theorem c5_metal_fuzz_witness :
    (Metal.new ⟨1, 1, 1⟩ (1 / 2)).fuzzOf ≤ 1 ∧
    ((0 : ℚ) ≤ 1 / 2 ∧ 0 ≤ (Metal.new ⟨1, 1, 1⟩ (1 / 2)).fuzzOf) :=
  ⟨(c5_metal_fuzz_clamped ⟨1, 1, 1⟩ (1 / 2)).1,
    by norm_num, (c5_metal_fuzz_clamped ⟨1, 1, 1⟩ (1 / 2)).2 (by norm_num)⟩

-- ─── C6: tone mapping stays in the unit cube ────────────────────────────────

theorem reinhard_channel_mem {q : ℚ} (h : 0 ≤ q) :
    0 ≤ q / (1 + q) ∧ q / (1 + q) ≤ 1 := by
  constructor
  · exact div_nonneg h (by linarith)
  · rw [div_le_one (by linarith)]
    linarith

theorem aces_channel_mem (q : ℚ) : 0 ≤ acesChannel q ∧ acesChannel q ≤ 1 := by
  unfold acesChannel qclamp
  exact ⟨le_min (le_max_right _ _) (by norm_num), min_le_right _ _⟩

/-- C6: for any color with non-negative channels, both the Reinhard and the
ACES operator of `ToneMapOp::apply` produce a color in `[0,1]³`. -/
theorem c6_tonemap_in_unit_cube (c : Vec3) (hx : 0 ≤ c.x) (hy : 0 ≤ c.y)
    (hz : 0 ≤ c.z) :
    (ToneMapOp.reinhard.apply c).inUnitCube ∧
    (ToneMapOp.aces.apply c).inUnitCube := by
  constructor
  · obtain ⟨x1, x2⟩ := reinhard_channel_mem hx
    obtain ⟨y1, y2⟩ := reinhard_channel_mem hy
    obtain ⟨z1, z2⟩ := reinhard_channel_mem hz
    exact ⟨x1, x2, y1, y2, z1, z2⟩
  · obtain ⟨x1, x2⟩ := aces_channel_mem c.x
    obtain ⟨y1, y2⟩ := aces_channel_mem c.y
    obtain ⟨z1, z2⟩ := aces_channel_mem c.z
    exact ⟨x1, x2, y1, y2, z1, z2⟩

/-- C6 witness: the theorem at the very large HDR input `(1e6, 1e6, 1e6)`. -/
theorem c6_tonemap_witness :
    ((0 : ℚ) ≤ 1000000) ∧
    (ToneMapOp.reinhard.apply ⟨1000000, 1000000, 1000000⟩).inUnitCube ∧
    (ToneMapOp.aces.apply ⟨1000000, 1000000, 1000000⟩).inUnitCube :=
  ⟨by norm_num,
    c6_tonemap_in_unit_cube ⟨1000000, 1000000, 1000000⟩ (by norm_num)
      (by norm_num) (by norm_num)⟩

-- ─── C7: reflection preserves length and negates the normal component ───────

/-- C7: for a unit incident vector and a unit normal, `Vec3::reflect`
preserves the length and negates the component along the normal. -/
theorem c7_reflect_length_dot (d n : Vec3) (_hd : d.lengthSquared = 1)
    (hn : n.lengthSquared = 1) :
    (d.reflect n).length = d.length ∧ (d.reflect n).dot n = -(d.dot n) := by
  have hls : (d.reflect n).lengthSquared = d.lengthSquared := by
    simp only [Vec3.reflect, Vec3.sub, Vec3.smul, Vec3.dot,
      Vec3.lengthSquared] at hn ⊢
    linear_combination (4 * (d.x * n.x + d.y * n.y + d.z * n.z) ^ 2) * hn
  constructor
  · unfold Vec3.length
    rw [hls]
  · simp only [Vec3.reflect, Vec3.sub, Vec3.smul, Vec3.dot,
      Vec3.lengthSquared] at hn ⊢
    linear_combination (-2 * (d.x * n.x + d.y * n.y + d.z * n.z)) * hn

/-- C7 witness: the theorem at `d = (3/5, 4/5, 0)`, `n = (0, 1, 0)`. -/
theorem c7_reflect_witness :
    (Vec3.lengthSquared ⟨3/5, 4/5, 0⟩ = 1 ∧ Vec3.lengthSquared ⟨0, 1, 0⟩ = 1) ∧
    ((Vec3.reflect ⟨3/5, 4/5, 0⟩ ⟨0, 1, 0⟩).length =
        (Vec3.length ⟨3/5, 4/5, 0⟩) ∧
      (Vec3.reflect ⟨3/5, 4/5, 0⟩ ⟨0, 1, 0⟩).dot ⟨0, 1, 0⟩ =
        -(Vec3.dot ⟨3/5, 4/5, 0⟩ ⟨0, 1, 0⟩)) :=
  ⟨⟨by norm_num [Vec3.lengthSquared], by norm_num [Vec3.lengthSquared]⟩,
    c7_reflect_length_dot ⟨3/5, 4/5, 0⟩ ⟨0, 1, 0⟩
      (by norm_num [Vec3.lengthSquared]) (by norm_num [Vec3.lengthSquared])⟩

-- ─── C8: dielectric always scatters with white attenuation ──────────────────

/-- C8: `Dielectric::scatter` always returns `Some`, and the attenuation is
exactly white `(1,1,1)`, for every incoming ray, hit record, and generator
state. -/
theorem c8_dielectric_white (sinQ : ℚ → ℚ) (ior : ℚ) (ray : Ray)
    (hit : HitRecord) (rng : Rng) :
    (Material.scatter sinQ (.dielectric ior) ray hit rng).1.map
      (fun p => p.2) = some Vec3.ones := by
  simp [Material.scatter, Rng.genQ]

-- ─── C9: BVH construction fails exactly on the empty list ───────────────────

theorem insertByKey_perm {α : Type} (key : α → ℚ) (x : α) (l : List α) :
    (insertByKey key x l).Perm (x :: l) := by
  induction l with
  | nil => exact List.Perm.refl _
  | cons y ys ih =>
    simp only [insertByKey]
    split
    · exact (ih.cons y).trans (List.Perm.swap x y ys)
    · exact List.Perm.refl _

theorem sortByKey_perm {α : Type} (key : α → ℚ) (l : List α) :
    (sortByKey key l).Perm l := by
  induction l with
  | nil => exact List.Perm.refl _
  | cons x xs ih =>
    exact (insertByKey_perm key x (sortByKey key xs)).trans (ih.cons x)

theorem sortByKey_length {α : Type} (key : α → ℚ) (l : List α) :
    (sortByKey key l).length = l.length :=
  (sortByKey_perm key l).length_eq

theorem buildStep_isSome (a b : Option BvhNode) :
    (buildStep a b).isSome = (a.isSome && b.isSome) := by
  cases a <;> cases b <;> rfl

/-- Enough fuel (the list length suffices) makes `buildFuel` succeed on any
non-empty list. -/
theorem buildFuel_isSome :
    ∀ (fuel : ℕ) (objs : List HittableI), objs ≠ [] → objs.length ≤ fuel →
      (buildFuel fuel objs).isSome = true := by
  intro fuel
  induction fuel with
  | zero =>
    intro objs hne hlen
    rw [Nat.le_zero] at hlen
    exact absurd (List.length_eq_zero.mp hlen) hne
  | succ f ih =>
    intro objs hne hlen
    match objs with
    | [o] => simp [buildFuel]
    | o1 :: o2 :: rest =>
      have hlen2 : (o1 :: o2 :: rest).length = rest.length + 2 := by simp
      rw [hlen2] at hlen
      simp only [buildFuel, buildStep_isSome, Bool.and_eq_true]
      constructor
      · apply ih
        · rw [← List.length_pos, List.length_take, sortByKey_length, hlen2]
          omega
        · rw [List.length_take, sortByKey_length, hlen2]
          omega
      · apply ih
        · rw [← List.length_pos, List.length_drop, sortByKey_length, hlen2]
          omega
        · rw [List.length_drop, sortByKey_length, hlen2]
          omega

/-- C9: `BvhNode::build` fails (a fatal panic, modelled as `none`) exactly
when the object list is empty: it returns `none` on the empty list and
succeeds on every non-empty list. -/
theorem c9_build_fails_iff_empty :
    BvhNode.build ([] : List HittableI) = none ∧
    ∀ objs : List HittableI, objs ≠ [] → (BvhNode.build objs).isSome = true :=
  ⟨rfl, fun objs hne => buildFuel_isSome objs.length objs hne le_rfl⟩

/-- C9 witness: the one-sphere scene builds successfully. -/
theorem c9_build_witness :
    ([exSphereH] ≠ ([] : List HittableI)) ∧
    (BvhNode.build [exSphereH]).isSome = true :=
  ⟨by simp, c9_build_fails_iff_empty.2 [exSphereH] (by simp)⟩

-- ─── C10: termination of the recursive trace ────────────────────────────────

/-- Any two fuels of at least `max_bounces - depth` compute the same trace
value: the recursion never needs more than that many nested calls. -/
theorem traceFuel_stable (sinQ : ℚ → ℚ) (scene : HittableI) (sky : SkyModel)
    (maxBounces : ℕ) :
    ∀ f₁ f₂ depth ray rng, maxBounces - depth ≤ f₁ →
      maxBounces - depth ≤ f₂ →
      traceFuel sinQ scene sky maxBounces f₁ ray depth rng =
        traceFuel sinQ scene sky maxBounces f₂ ray depth rng := by
  intro f₁
  induction f₁ with
  | zero =>
    intro f₂ depth ray rng h1 h2
    have hd : maxBounces ≤ depth := by omega
    cases f₂ with
    | zero => rfl
    | succ g => simp [traceFuel, hd]
  | succ f ihf =>
    intro f₂ depth ray rng h1 h2
    by_cases hd : maxBounces ≤ depth
    · cases f₂ with
      | zero => simp [traceFuel, hd]
      | succ g => simp [traceFuel, hd]
    · obtain ⟨g, rfl⟩ : ∃ g, f₂ = g + 1 := ⟨f₂ - 1, by omega⟩
      cases hhit : scene.hit ray (1 / 1000) FP.pinf with
      | none => simp only [traceFuel, if_neg hd, hhit]
      | some hit =>
        rcases hscat : Material.scatter sinQ hit.material ray hit rng with
          ⟨os, rng'⟩
        cases os with
        | none => simp only [traceFuel, if_neg hd, hhit, hscat]
        | some pr =>
          obtain ⟨scattered, att⟩ := pr
          have hrec := ihf g (depth + 1) scattered rng' (by omega) (by omega)
          simp only [traceFuel, if_neg hd, hhit, hscat]
          rw [hrec]

/-- C10: the recursive `trace_ray` terminates — any fuel of at least
`max_bounces - depth` yields the same value (each recursive call raises the
depth by one, so the recursion depth is bounded by `max_bounces` minus the
starting depth), and once `depth ≥ max_bounces` the function returns black
without recursing. -/
theorem c10_trace_terminates (sinQ : ℚ → ℚ) (scene : HittableI)
    (sky : SkyModel) (maxBounces : ℕ) (ray : Ray) (depth : ℕ) (rng : Rng)
    (f₁ f₂ : ℕ) (h1 : maxBounces - depth ≤ f₁) (h2 : maxBounces - depth ≤ f₂) :
    traceFuel sinQ scene sky maxBounces f₁ ray depth rng =
      traceFuel sinQ scene sky maxBounces f₂ ray depth rng ∧
    (maxBounces ≤ depth →
      traceFuel sinQ scene sky maxBounces f₁ ray depth rng = Vec3.zero) := by
  refine ⟨traceFuel_stable sinQ scene sky maxBounces f₁ f₂ depth ray rng h1 h2,
    fun hd => ?_⟩
  cases f₁ with
  | zero => rfl
  | succ g => simp [traceFuel, hd]

/-- C10 witness: the stability theorem at the one-sphere scene, depth 0,
`max_bounces = 2`, fuels 3 and 5. -/
theorem c10_trace_witness :
    ((2 : ℕ) - 0 ≤ 3 ∧ (2 : ℕ) - 0 ≤ 5) ∧
    traceFuel (fun q => q) exSphereH SkyModel.black 2 3 towardRay 0 exRng =
      traceFuel (fun q => q) exSphereH SkyModel.black 2 5 towardRay 0 exRng :=
  ⟨⟨by norm_num, by norm_num⟩,
    (c10_trace_terminates (fun q => q) exSphereH SkyModel.black 2 towardRay 0
      exRng 3 5 (by norm_num) (by norm_num)).1⟩

-- ─── C2: a miss returns exactly the sky sample ──────────────────────────────

/-- The `missRay` indeed misses every primitive of the one-sphere scene
(both quadratic roots are negative). -/
theorem exSphere_missRay_none :
    exSphereH.hit missRay (1 / 1000) FP.pinf = none := by
  norm_num [exSphereH, exSphere, Primitive.toHittable, Primitive.hit,
    Sphere.hit, missRay, outOfRange, FP.lt, Vec3.sub, Vec3.dot,
    Vec3.lengthSquared, Rat.sqrt, exMat]

/-- C2 counterexample: with `max_bounces = 0` the tracer returns black
immediately, even for a ray that misses every primitive under a non-black
sky, so the claim's "every max_bounces setting" fails at 0. -/
theorem c2_trace_zero_bounces_counterexample :
    exSphereH.hit missRay (1 / 1000) FP.pinf = none ∧
    traceRay (fun q => q) exSphereH (SkyModel.solid Vec3.ones) 0 missRay 0
      exRng = Vec3.zero ∧
    SkyModel.sample (SkyModel.solid Vec3.ones) missRay = Vec3.ones ∧
    Vec3.zero ≠ Vec3.ones := by
  refine ⟨exSphere_missRay_none, rfl, rfl, ?_⟩
  simp [Vec3.zero, Vec3.ones]

/-- C2 (amended): for every `max_bounces ≥ 1`, every generator state, and
every ray on which the scene's `hit` (with `t_min = 0.001`,
`t_max = +inf`) returns no intersection, `trace_ray` at depth 0 returns
exactly the sky model's sample for that ray. -/
theorem c2_trace_miss_sky (sinQ : ℚ → ℚ) (scene : HittableI) (sky : SkyModel)
    (maxBounces : ℕ) (rng : Rng) (ray : Ray) (hmb : 1 ≤ maxBounces)
    (hmiss : scene.hit ray (1 / 1000) FP.pinf = none) :
    traceRay sinQ scene sky maxBounces ray 0 rng = sky.sample ray := by
  unfold traceRay
  have hf : maxBounces + 1 - 0 = maxBounces + 1 := by omega
  have hne : ¬ maxBounces ≤ 0 := by omega
  rw [hf]
  simp only [traceFuel, if_neg hne, hmiss]

/-- C2 witness: the amended theorem at the one-sphere scene with a solid
sky and `max_bounces = 3`. -/
theorem c2_trace_miss_witness :
    ((1 : ℕ) ≤ 3 ∧ exSphereH.hit missRay (1 / 1000) FP.pinf = none) ∧
    traceRay (fun q => q) exSphereH (SkyModel.solid ⟨1, 1/2, 1/4⟩) 3 missRay 0
      exRng = SkyModel.sample (SkyModel.solid ⟨1, 1/2, 1/4⟩) missRay :=
  ⟨⟨by norm_num, exSphere_missRay_none⟩,
    c2_trace_miss_sky (fun q => q) exSphereH (SkyModel.solid ⟨1, 1/2, 1/4⟩) 3
      exRng missRay (by norm_num) exSphere_missRay_none⟩

-- ─── C3: hit parameters lie in the queried interval ─────────────────────────

theorem mkHitRecord_t (ray : Ray) (point outwardNormal : Vec3) (t : ℚ)
    (material : Material) :
    (mkHitRecord ray point outwardNormal t material).t = t := rfl

theorem outOfRange_eq_false {t tmin tmax : ℚ}
    (h : outOfRange t tmin (.fin tmax) = false) : tmin ≤ t ∧ t ≤ tmax := by
  simp only [outOfRange, Bool.or_eq_false_iff, decide_eq_false_iff_not,
    FP.lt, decide_eq_false_iff_not] at h
  exact ⟨not_lt.mp h.1, not_lt.mp h.2⟩

/-- C3 counterexample: a hit exactly at `t = t_min` is accepted (the bounds
are closed, not open): the unit sphere hit from `(0,0,2)` with `t_min = 1`
returns a record with `t = 1 = t_min`, refuting `t_min < t`. -/
theorem c3_open_interval_counterexample :
    ((Primitive.sphere exSphere).hit towardRay 1 (.fin 5)).map (·.t) =
      some 1 ∧ ¬ (1 : ℚ) < 1 := by
  constructor
  · norm_num [Primitive.hit, Sphere.hit, exSphere, towardRay, outOfRange,
      FP.lt, Vec3.sub, Vec3.dot, Vec3.lengthSquared, Rat.sqrt, mkHitRecord,
      Ray.at, Vec3.add, Vec3.smul, Vec3.divs, exMat]
  · exact lt_irrefl 1

/-- C3 (amended): for every primitive, ray, and bounds `t_min < t_max`,
any returned hit parameter lies in the *closed* interval
`t_min ≤ t ≤ t_max` (the code accepts the endpoints). -/
theorem c3_hit_t_in_closed_interval (p : Primitive) (ray : Ray)
    (tmin tmax : ℚ) (_hlt : tmin < tmax) (rec : HitRecord)
    (hhit : p.hit ray tmin (.fin tmax) = some rec) :
    tmin ≤ rec.t ∧ rec.t ≤ tmax := by
  cases p with
  | sphere s =>
    simp only [Primitive.hit, Sphere.hit, Option.ite_none_left_eq_some,
      Option.some.injEq, Bool.not_eq_true] at hhit
    obtain ⟨-, hguard, hrec⟩ := hhit
    rw [← hrec, mkHitRecord_t]
    exact outOfRange_eq_false hguard
  | plane p =>
    simp only [Primitive.hit, Plane.hit, Option.ite_none_left_eq_some,
      Option.some.injEq, Bool.not_eq_true] at hhit
    obtain ⟨-, hguard, hrec⟩ := hhit
    rw [← hrec, mkHitRecord_t]
    exact outOfRange_eq_false hguard
  | triangle tr =>
    simp only [Primitive.hit, Triangle.hit, Option.ite_none_left_eq_some,
      Option.some.injEq, Bool.not_eq_true] at hhit
    obtain ⟨-, -, -, hguard, hrec⟩ := hhit
    rw [← hrec, mkHitRecord_t]
    exact outOfRange_eq_false hguard
  | quad q =>
    simp only [Primitive.hit, Quad.hit, Option.ite_none_left_eq_some,
      Option.some.injEq, Bool.not_eq_true] at hhit
    obtain ⟨-, hguard, -, hrec⟩ := hhit
    rw [← hrec, mkHitRecord_t]
    exact outOfRange_eq_false hguard
  | disk dk =>
    simp only [Primitive.hit, Disk.hit, Option.ite_none_left_eq_some,
      Option.some.injEq, Bool.not_eq_true] at hhit
    obtain ⟨-, hguard, -, hrec⟩ := hhit
    rw [← hrec, mkHitRecord_t]
    exact outOfRange_eq_false hguard

/-- C3 witness: the amended theorem at the unit sphere with
`t_min = 1/2 < t_max = 5` and the concrete record hit at `t = 1`. -/
theorem c3_hit_interval_witness :
    ((1 / 2 : ℚ) < 5 ∧
      (Primitive.sphere exSphere).hit towardRay (1 / 2) (.fin 5) =
        some (mkHitRecord towardRay ⟨0, 0, 1⟩ ⟨0, 0, 1⟩ 1 exMat)) ∧
    (1 / 2 : ℚ) ≤ (mkHitRecord towardRay ⟨0, 0, 1⟩ ⟨0, 0, 1⟩ 1 exMat).t ∧
    (mkHitRecord towardRay ⟨0, 0, 1⟩ ⟨0, 0, 1⟩ 1 exMat).t ≤ 5 :=
  ⟨⟨by norm_num,
      by norm_num [Primitive.hit, Sphere.hit, exSphere, towardRay, outOfRange,
        FP.lt, Vec3.sub, Vec3.dot, Vec3.lengthSquared, Rat.sqrt, mkHitRecord,
        Ray.at, Vec3.add, Vec3.smul, Vec3.divs, Vec3.neg, exMat]⟩,
    c3_hit_t_in_closed_interval (Primitive.sphere exSphere) towardRay (1 / 2)
      5 (by norm_num) (mkHitRecord towardRay ⟨0, 0, 1⟩ ⟨0, 0, 1⟩ 1 exMat)
      (by norm_num [Primitive.hit, Sphere.hit, exSphere, towardRay, outOfRange,
        FP.lt, Vec3.sub, Vec3.dot, Vec3.lengthSquared, Rat.sqrt, mkHitRecord,
        Ray.at, Vec3.add, Vec3.smul, Vec3.divs, Vec3.neg, exMat])⟩

-- ─── C1 stack 1: slab test is monotone under box widening ───────────────────

theorem FP.toE_mulQ_pinf (q : ℚ) :
    FP.toE (FP.mulQ q .pinf) =
      if 0 < q then ((⊤ : WithTop ℚ) : QInf) else ⊥ := by
  unfold FP.mulQ
  split_ifs with h1 h2 <;> simp_all [FP.toE]

theorem FP.toEHi_mulQ_pinf (q : ℚ) :
    FP.toEHi (FP.mulQ q .pinf) =
      if q < 0 then ⊥ else ((⊤ : WithTop ℚ) : QInf) := by
  unfold FP.mulQ
  split_ifs with h1 h2 h3 <;> simp_all [FP.toEHi]
  linarith

theorem FP.lt_pinf_zero : FP.lt .pinf (.fin 0) = false := rfl

/-- Widening a box along one axis can only loosen the (lower, upper) slab
bounds of that axis, NaN products included. -/
theorem slab_bounds_mono (m₁ M₁ m₂ M₂ o d : ℚ) (hm : m₂ ≤ m₁)
    (hM : M₁ ≤ M₂) :
    FP.toE (if FP.lt (FP.inv d) (.fin 0) then FP.mulQ (M₂ - o) (FP.inv d)
        else FP.mulQ (m₂ - o) (FP.inv d)) ≤
      FP.toE (if FP.lt (FP.inv d) (.fin 0) then FP.mulQ (M₁ - o) (FP.inv d)
        else FP.mulQ (m₁ - o) (FP.inv d)) ∧
    FP.toEHi (if FP.lt (FP.inv d) (.fin 0) then FP.mulQ (m₁ - o) (FP.inv d)
        else FP.mulQ (M₁ - o) (FP.inv d)) ≤
      FP.toEHi (if FP.lt (FP.inv d) (.fin 0) then FP.mulQ (m₂ - o) (FP.inv d)
        else FP.mulQ (M₂ - o) (FP.inv d)) := by
  by_cases hd : d = 0
  · subst hd
    have h0 : FP.inv 0 = .pinf := by simp [FP.inv]
    rw [h0]
    have hc : FP.lt FP.pinf (.fin 0) = false := rfl
    rw [hc]
    constructor
    · rw [if_neg Bool.false_ne_true, if_neg Bool.false_ne_true,
        FP.toE_mulQ_pinf, FP.toE_mulQ_pinf]
      split_ifs with h1 h2 h3
      · exact le_refl _
      · exact absurd (lt_of_lt_of_le h1 (by linarith)) h2
      · exact bot_le
      · exact le_refl _
    · rw [if_neg Bool.false_ne_true, if_neg Bool.false_ne_true,
        FP.toEHi_mulQ_pinf, FP.toEHi_mulQ_pinf]
      split_ifs with h1 h2 h3
      · exact le_refl _
      · exact bot_le
      · exact absurd (lt_of_le_of_lt (by linarith : M₁ - o ≤ M₂ - o) h3) h1
      · exact le_refl _
  · have hinv : FP.inv d = .fin (1 / d) := by simp [FP.inv, hd]
    rw [hinv]
    have hlt : FP.lt (.fin (1 / d)) (.fin 0) = decide (1 / d < 0) := rfl
    rw [hlt]
    rcases lt_or_gt_of_ne (one_div_ne_zero hd) with hneg | hpos
    · simp only [decide_eq_true_eq, if_pos hneg, FP.mulQ, FP.toE, FP.toEHi]
      constructor
      · exact WithBot.coe_le_coe.2 (WithTop.coe_le_coe.2
          (mul_le_mul_of_nonpos_right (by linarith) hneg.le))
      · exact WithBot.coe_le_coe.2 (WithTop.coe_le_coe.2
          (mul_le_mul_of_nonpos_right (by linarith) hneg.le))
    · have hnneg : ¬ (1 / d < 0) := not_lt.mpr hpos.le
      simp only [decide_eq_true_eq, if_neg hnneg, FP.mulQ, FP.toE, FP.toEHi]
      constructor
      · exact WithBot.coe_le_coe.2 (WithTop.coe_le_coe.2
          (mul_le_mul_of_nonneg_right (by linarith) hpos.le))
      · exact WithBot.coe_le_coe.2 (WithTop.coe_le_coe.2
          (mul_le_mul_of_nonneg_right (by linarith) hpos.le))

/-- The slab fold on a wider box succeeds whenever it succeeds on a
narrower box, for any running interval at least as wide. -/
theorem slabFold_mono (bsmall bbig : Aabb) (ray : Ray)
    (hsub : subBox bsmall bbig) :
    ∀ (axes : List ℕ) (tmin₁ tmax₁ tmin₂ tmax₂ : FP),
      tmin₁ ≠ .nan → tmax₁ ≠ .nan → tmin₂ ≠ .nan → tmax₂ ≠ .nan →
      FP.toE tmin₂ ≤ FP.toE tmin₁ → FP.toE tmax₁ ≤ FP.toE tmax₂ →
      slabFold bsmall ray axes tmin₁ tmax₁ = true →
      slabFold bbig ray axes tmin₂ tmax₂ = true := by
  intro axes
  induction axes with
  | nil => intro _ _ _ _ _ _ _ _ _ _ _; rfl
  | cons a rest ih =>
    intro tmin₁ tmax₁ tmin₂ tmax₂ hn1 hn2 hn3 hn4 hle1 hle2 hrun
    have hmm : bbig.min.nth a ≤ bsmall.min.nth a ∧
        bsmall.max.nth a ≤ bbig.max.nth a := by
      obtain ⟨s1, s2, s3, s4, s5, s6⟩ := hsub
      match a with
      | 0 => exact ⟨s1, s4⟩
      | 1 => exact ⟨s2, s5⟩
      | 2 => exact ⟨s3, s6⟩
      | n + 3 => exact ⟨le_refl 0, le_refl 0⟩
    have hbounds := slab_bounds_mono (bsmall.min.nth a) (bsmall.max.nth a)
      (bbig.min.nth a) (bbig.max.nth a) (ray.origin.nth a)
      (ray.direction.nth a) hmm.1 hmm.2
    simp only [slabFold] at hrun ⊢
    set lo₁ := if FP.lt (FP.inv (ray.direction.nth a)) (.fin 0) then
        FP.mulQ (bsmall.max.nth a - ray.origin.nth a)
          (FP.inv (ray.direction.nth a))
      else FP.mulQ (bsmall.min.nth a - ray.origin.nth a)
        (FP.inv (ray.direction.nth a)) with hlo1
    set hi₁ := if FP.lt (FP.inv (ray.direction.nth a)) (.fin 0) then
        FP.mulQ (bsmall.min.nth a - ray.origin.nth a)
          (FP.inv (ray.direction.nth a))
      else FP.mulQ (bsmall.max.nth a - ray.origin.nth a)
        (FP.inv (ray.direction.nth a)) with hhi1
    set lo₂ := if FP.lt (FP.inv (ray.direction.nth a)) (.fin 0) then
        FP.mulQ (bbig.max.nth a - ray.origin.nth a)
          (FP.inv (ray.direction.nth a))
      else FP.mulQ (bbig.min.nth a - ray.origin.nth a)
        (FP.inv (ray.direction.nth a)) with hlo2
    set hi₂ := if FP.lt (FP.inv (ray.direction.nth a)) (.fin 0) then
        FP.mulQ (bbig.min.nth a - ray.origin.nth a)
          (FP.inv (ray.direction.nth a))
      else FP.mulQ (bbig.max.nth a - ray.origin.nth a)
        (FP.inv (ray.direction.nth a)) with hhi2
    have hnm1 : FP.rmax lo₁ tmin₁ ≠ .nan := FP.rmax_ne_nan hn1
    have hnm2 : FP.rmin hi₁ tmax₁ ≠ .nan := FP.rmin_ne_nan hn2
    have hnm3 : FP.rmax lo₂ tmin₂ ≠ .nan := FP.rmax_ne_nan hn3
    have hnm4 : FP.rmin hi₂ tmax₂ ≠ .nan := FP.rmin_ne_nan hn4
    have hmin' : FP.toE (FP.rmax lo₂ tmin₂) ≤ FP.toE (FP.rmax lo₁ tmin₁) := by
      rw [FP.toE_rmax hn1, FP.toE_rmax hn3]
      exact max_le_max hbounds.1 hle1
    have hmax' : FP.toE (FP.rmin hi₁ tmax₁) ≤ FP.toE (FP.rmin hi₂ tmax₂) := by
      rw [FP.toE_eq_toEHi hnm2, FP.toE_eq_toEHi hnm4, FP.toEHi_rmin hn2,
        FP.toEHi_rmin hn4]
      exact min_le_min hbounds.2
        (by rw [← FP.toE_eq_toEHi hn2, ← FP.toE_eq_toEHi hn4]; exact hle2)
    rcases hchk : FP.le (FP.rmin hi₁ tmax₁) (FP.rmax lo₁ tmin₁) with _ | _
    · rw [hchk] at hrun
      simp only [Bool.false_eq_true, if_false] at hrun
      have hstrict : FP.toE (FP.rmax lo₁ tmin₁) < FP.toE (FP.rmin hi₁ tmax₁) := by
        rcases lt_or_le (FP.toE (FP.rmax lo₁ tmin₁))
            (FP.toE (FP.rmin hi₁ tmax₁)) with h | h
        · exact h
        · exact absurd ((FP.le_iff_toE hnm2 hnm1).2 h) (by rw [hchk]; simp)
      have hchk2 : FP.le (FP.rmin hi₂ tmax₂) (FP.rmax lo₂ tmin₂) = false := by
        rcases hc : FP.le (FP.rmin hi₂ tmax₂) (FP.rmax lo₂ tmin₂) with _ | _
        · rfl
        · have := (FP.le_iff_toE hnm4 hnm3).1 hc
          exact absurd (lt_of_le_of_lt (this.trans hmin')
            (lt_of_lt_of_le hstrict hmax')) (lt_irrefl _)
      rw [hchk2]
      simp only [Bool.false_eq_true, if_false]
      exact ih _ _ _ _ hnm1 hnm2 hnm3 hnm4 hmin' hmax' hrun
    · rw [hchk] at hrun
      simp at hrun

/-- A wider box passes the slab test whenever a narrower one does. -/
theorem aabbHit_mono {a b : Aabb} {ray : Ray} {tmin : ℚ} {tmax : FP}
    (hsub : subBox a b) (htmax : tmax ≠ .nan)
    (h : Aabb.hit a ray tmin tmax = true) : Aabb.hit b ray tmin tmax = true :=
  slabFold_mono a b ray hsub [0, 1, 2] (.fin tmin) tmax (.fin tmin) tmax
    (by simp) htmax (by simp) htmax (le_refl _) (le_refl _) h

theorem subBox_refl (a : Aabb) : subBox a a := by
  unfold subBox
  exact ⟨le_refl _, le_refl _, le_refl _, le_refl _, le_refl _, le_refl _⟩

theorem subBox_trans {a b c : Aabb} (h1 : subBox a b) (h2 : subBox b c) :
    subBox a c := by
  unfold subBox at h1 h2 ⊢
  obtain ⟨x1, x2, x3, x4, x5, x6⟩ := h1
  obtain ⟨y1, y2, y3, y4, y5, y6⟩ := h2
  exact ⟨y1.trans x1, y2.trans x2, y3.trans x3, x4.trans y4, x5.trans y5,
    x6.trans y6⟩

theorem subBox_surrounding_left (a b : Aabb) :
    subBox a (Aabb.surrounding a b) := by
  unfold subBox Aabb.surrounding
  exact ⟨min_le_left _ _, min_le_left _ _, min_le_left _ _,
    le_max_left _ _, le_max_left _ _, le_max_left _ _⟩

theorem subBox_surrounding_right (a b : Aabb) :
    subBox b (Aabb.surrounding a b) := by
  unfold subBox Aabb.surrounding
  exact ⟨min_le_right _ _, min_le_right _ _, min_le_right _ _,
    le_max_right _ _, le_max_right _ _, le_max_right _ _⟩

-- ─── C1 stack 2: the brute-force scan returns the minimal hit ───────────────

theorem noTie_symm (ray : Ray) (tmin : ℚ) :
    Symmetric (NoTie ray tmin) := by
  intro o o' h T T' r r' h1 h2
  exact (h T' T r' r h2 h1).symm

theorem bruteForce_eq_none_iff (objs : List HittableI) (ray : Ray)
    (tmin : ℚ) (tmax : FP) :
    bruteForce objs ray tmin tmax = none ↔
      ∀ o ∈ objs, o.hit ray tmin tmax = none := by
  induction objs with
  | nil => simp [bruteForce]
  | cons o rest ih =>
    rcases h1 : o.hit ray tmin tmax with _ | r <;>
      rcases h2 : bruteForce rest ray tmin tmax with _ | b
    · have hP : ∀ o' ∈ o :: rest, o'.hit ray tmin tmax = none := by
        intro o' ho'
        rcases List.mem_cons.mp ho' with rfl | hm
        · exact h1
        · exact (ih.mp h2) o' hm
      simp only [bruteForce, h1, h2]
      exact iff_of_true trivial hP
    · simp only [bruteForce, h1, h2]
      refine iff_of_false (fun hn => Option.noConfusion hn) (fun hall => ?_)
      have hr : bruteForce rest ray tmin tmax = none :=
        ih.mpr (fun o' ho' => hall o' (List.mem_cons_of_mem o ho'))
      rw [hr] at h2
      exact Option.noConfusion h2
    · simp only [bruteForce, h1, h2]
      refine iff_of_false (fun hn => Option.noConfusion hn) (fun hall => ?_)
      rw [hall o (List.mem_cons_self o rest)] at h1
      exact Option.noConfusion h1
    · simp only [bruteForce, h1, h2]
      refine iff_of_false (fun hn => ?_) (fun hall => ?_)
      · split at hn <;> exact Option.noConfusion hn
      · rw [hall o (List.mem_cons_self o rest)] at h1
        exact Option.noConfusion h1

theorem bruteForce_some_isMin (objs : List HittableI) (ray : Ray)
    (tmin T : ℚ) (r : HitRecord)
    (h : bruteForce objs ray tmin (.fin T) = some r) :
    IsMinHit objs ray tmin T r := by
  induction objs generalizing r with
  | nil => simp [bruteForce] at h
  | cons o rest ih =>
    rcases h1 : o.hit ray tmin (.fin T) with _ | r₀ <;>
      rcases h2 : bruteForce rest ray tmin (.fin T) with _ | b <;>
        simp only [bruteForce, h1, h2] at h
    · exact absurd h (by simp)
    · replace h : b = r := Option.some.inj h
      subst h
      obtain ⟨⟨ow, how, hhw⟩, hmin⟩ := ih b h2
      refine ⟨⟨ow, List.mem_cons_of_mem o how, hhw⟩, ?_⟩
      intro o' ho' r' h'
      rcases List.mem_cons.mp ho' with rfl | hmem
      · rw [h1] at h'
        exact absurd h' (by simp)
      · exact hmin o' hmem r' h'
    · replace h : r₀ = r := Option.some.inj h
      subst h
      have hall := (bruteForce_eq_none_iff rest ray tmin (.fin T)).mp h2
      refine ⟨⟨o, List.mem_cons_self o rest, h1⟩, ?_⟩
      intro o' ho' r' h'
      rcases List.mem_cons.mp ho' with rfl | hmem
      · rw [h1] at h'
        obtain rfl := Option.some.inj h'
        exact le_refl _
      · rw [hall o' hmem] at h'
        exact absurd h' (by simp)
    · obtain ⟨⟨ow, how, hhw⟩, hminb⟩ := ih b h2
      split at h
      · rename_i hlt
        replace h : b = r := Option.some.inj h
        subst h
        refine ⟨⟨ow, List.mem_cons_of_mem o how, hhw⟩, ?_⟩
        intro o' ho' r' h'
        rcases List.mem_cons.mp ho' with rfl | hmem
        · rw [h1] at h'
          obtain rfl := Option.some.inj h'
          exact hlt.le
        · exact hminb o' hmem r' h'
      · rename_i hnlt
        replace h : r₀ = r := Option.some.inj h
        subst h
        refine ⟨⟨o, List.mem_cons_self o rest, h1⟩, ?_⟩
        intro o' ho' r' h'
        rcases List.mem_cons.mp ho' with rfl | hmem
        · rw [h1] at h'
          obtain rfl := Option.some.inj h'
          exact le_refl _
        · exact (not_lt.mp hnlt).trans (hminb o' hmem r' h')

theorem isMin_bruteForce (objs : List HittableI) (ray : Ray) (tmin T : ℚ)
    (r : HitRecord) (hp : List.Pairwise (NoTie ray tmin) objs)
    (hmin : IsMinHit objs ray tmin T r) :
    bruteForce objs ray tmin (.fin T) = some r := by
  induction objs generalizing r with
  | nil =>
    obtain ⟨⟨o, ho, _⟩, _⟩ := hmin
    exact absurd ho (List.not_mem_nil o)
  | cons o rest ih =>
    obtain ⟨⟨ow, how, hhw⟩, hminall⟩ := hmin
    rw [List.pairwise_cons] at hp
    obtain ⟨hhead, hrest⟩ := hp
    rcases h1 : o.hit ray tmin (.fin T) with _ | r₀
    · have howr : ow ∈ rest := by
        rcases List.mem_cons.mp how with rfl | hm
        · rw [h1] at hhw
          exact absurd hhw (by simp)
        · exact hm
      have hminr : IsMinHit rest ray tmin T r :=
        ⟨⟨ow, howr, hhw⟩,
          fun o' ho' r' h' => hminall o' (List.mem_cons_of_mem o ho') r' h'⟩
      have hbf := ih r hrest hminr
      simp only [bruteForce, h1, hbf]
    · rcases h2 : bruteForce rest ray tmin (.fin T) with _ | b
      · have hallnone := (bruteForce_eq_none_iff rest ray tmin (.fin T)).mp h2
        have hr : r₀ = r := by
          rcases List.mem_cons.mp how with rfl | hm
          · rw [h1] at hhw
            exact Option.some.inj hhw
          · rw [hallnone ow hm] at hhw
            exact absurd hhw (by simp)
        subst hr
        simp only [bruteForce, h1, h2]
      · have hmb := bruteForce_some_isMin rest ray tmin T b h2
        obtain ⟨⟨ob, hob, hhb⟩, hminb⟩ := hmb
        have hr0 : r.t ≤ r₀.t := hminall o (List.mem_cons_self o rest) r₀ h1
        have hrb : r.t ≤ b.t := hminall ob (List.mem_cons_of_mem o hob) b hhb
        rcases List.mem_cons.mp how with rfl | howr
        · rw [h1] at hhw
          replace hhw : r₀ = r := Option.some.inj hhw
          subst hhw
          simp only [bruteForce, h1, h2, if_neg (not_lt.mpr hrb)]
        · have hminr : IsMinHit rest ray tmin T r :=
            ⟨⟨ow, howr, hhw⟩,
              fun o' ho' r' h' => hminall o' (List.mem_cons_of_mem o ho') r' h'⟩
          have hbf := ih r hrest hminr
          rw [hbf] at h2
          replace h2 : r = b := Option.some.inj h2
          subst h2
          have hne : r₀.t ≠ r.t := hhead ow howr T T r₀ r h1 hhw
          have hlt : r.t < r₀.t := lt_of_le_of_ne hr0 (fun he => hne he.symm)
          simp only [bruteForce, h1, hbf, if_pos hlt]

theorem bruteForce_perm (objs objs' : List HittableI) (ray : Ray)
    (tmin T : ℚ) (hperm : objs.Perm objs')
    (hp : List.Pairwise (NoTie ray tmin) objs) :
    bruteForce objs ray tmin (.fin T) = bruteForce objs' ray tmin (.fin T) := by
  have hp' : List.Pairwise (NoTie ray tmin) objs' :=
    (hperm.pairwise_iff (fun h => noTie_symm ray tmin h)).mp hp
  rcases h : bruteForce objs ray tmin (.fin T) with _ | r
  · symm
    rw [bruteForce_eq_none_iff] at h ⊢
    exact fun o ho => h o (hperm.mem_iff.mpr ho)
  · obtain ⟨⟨ow, how, hhw⟩, hminall⟩ := bruteForce_some_isMin objs ray tmin T r h
    symm
    refine isMin_bruteForce objs' ray tmin T r hp' ⟨⟨ow, hperm.mem_iff.mp how, hhw⟩, ?_⟩
    exact fun o' ho' r' h' => hminall o' (hperm.mem_iff.mpr ho') r' h'

-- ─── C1 stack 3: the built tree satisfies the invariant ─────────────────────

theorem good_leaves_sound (ray : Ray) (tmin : ℚ) :
    ∀ t : BvhNode, t.Good ray tmin → ∀ o ∈ t.leaves, HitSound o ray tmin := by
  intro t
  induction t with
  | leaf o bbox =>
    intro hg o' ho'
    obtain ⟨hs, _⟩ := hg
    rw [List.mem_singleton.mp ho']
    exact hs
  | interior l r bbox ihl ihr =>
    intro hg o' ho'
    obtain ⟨gl, gr, _⟩ := hg
    rcases List.mem_append.mp ho' with hm | hm
    · exact ihl gl o' hm
    · exact ihr gr o' hm

theorem good_leaf_subBox (ray : Ray) (tmin : ℚ) :
    ∀ t : BvhNode, t.Good ray tmin → ∀ o ∈ t.leaves,
      subBox o.bbox t.boundingBoxInner := by
  intro t
  induction t with
  | leaf o bbox =>
    intro hg o' ho'
    obtain ⟨_, rfl⟩ := hg
    rw [List.mem_singleton.mp ho']
    exact subBox_refl _
  | interior l r bbox ihl ihr =>
    intro hg o' ho'
    obtain ⟨gl, gr, rfl⟩ := hg
    rcases List.mem_append.mp ho' with hm | hm
    · exact subBox_trans (ihl gl o' hm) (subBox_surrounding_left _ _)
    · exact subBox_trans (ihr gr o' hm) (subBox_surrounding_right _ _)

theorem buildStep_eq_some (a b : Option BvhNode) (t : BvhNode) :
    buildStep a b = some t ↔
      ∃ l r, a = some l ∧ b = some r ∧
        t = .interior l r
          (Aabb.surrounding l.boundingBoxInner r.boundingBoxInner) := by
  cases a <;> cases b <;> simp [buildStep]
  tauto

theorem buildFuel_good (ray : Ray) (tmin : ℚ) :
    ∀ (fuel : ℕ) (objs : List HittableI) (t : BvhNode),
      buildFuel fuel objs = some t → (∀ o ∈ objs, HitSound o ray tmin) →
      t.Good ray tmin ∧ t.leaves.Perm objs := by
  intro fuel
  induction fuel with
  | zero =>
    intro objs t h
    simp [buildFuel] at h
  | succ f ih =>
    intro objs t h hs
    match objs with
    | [] => simp [buildFuel] at h
    | [o] =>
      simp only [buildFuel] at h
      replace h := Option.some.inj h
      subst h
      exact ⟨⟨hs o (by simp), rfl⟩, by simp [BvhNode.leaves]⟩
    | o1 :: o2 :: rest =>
      simp only [buildFuel] at h
      obtain ⟨lt, rt, hlt, hrt, rfl⟩ := (buildStep_eq_some _ _ _).mp h
      have hsperm := sortByKey_perm (bvhSortKey (bvhAxis o1 (o2 :: rest)))
        (o1 :: o2 :: rest)
      have hsub : ∀ o ∈ sortByKey (bvhSortKey (bvhAxis o1 (o2 :: rest)))
          (o1 :: o2 :: rest), HitSound o ray tmin :=
        fun o ho => hs o (hsperm.mem_iff.mp ho)
      obtain ⟨gl, pl⟩ := ih _ lt hlt
        (fun o ho => hsub o (List.take_subset _ _ ho))
      obtain ⟨gr, pr⟩ := ih _ rt hrt
        (fun o ho => hsub o (List.drop_subset _ _ ho))
      refine ⟨⟨gl, gr, rfl⟩, ?_⟩
      have htd := List.take_append_drop ((o1 :: o2 :: rest).length / 2)
        (sortByKey (bvhSortKey (bvhAxis o1 (o2 :: rest))) (o1 :: o2 :: rest))
      have hperm2 : (List.take ((o1 :: o2 :: rest).length / 2)
            (sortByKey (bvhSortKey (bvhAxis o1 (o2 :: rest)))
              (o1 :: o2 :: rest)) ++
          List.drop ((o1 :: o2 :: rest).length / 2)
            (sortByKey (bvhSortKey (bvhAxis o1 (o2 :: rest)))
              (o1 :: o2 :: rest))).Perm (o1 :: o2 :: rest) := by
        rw [htd]
        exact hsperm
      exact (pl.append pr).trans hperm2

-- ─── C1 stack 4: tree traversal equals the brute-force scan ─────────────────

theorem good_hit_eq_bruteForce (ray : Ray) (tmin : ℚ) :
    ∀ t : BvhNode, t.Good ray tmin →
      List.Pairwise (NoTie ray tmin) t.leaves →
      ∀ T : ℚ, t.hit ray tmin (.fin T) =
        bruteForce t.leaves ray tmin (.fin T) := by
  intro t
  induction t with
  | leaf o bbox =>
    intro hg hp T
    obtain ⟨hsound, rfl⟩ := hg
    simp only [BvhNode.hit, BvhNode.leaves]
    rcases h : o.hit ray tmin (.fin T) with _ | r
    · have hbf : bruteForce [o] ray tmin (.fin T) = none := by
        simp only [bruteForce, h]
      rw [hbf]
      split <;> rfl
    · have hbox := hsound.cover T r h
      rw [if_pos hbox]
      simp only [bruteForce, h]
  | interior l r bbox ihl ihr =>
    intro hg hp T
    obtain ⟨gl, gr, rfl⟩ := hg
    have hp' : List.Pairwise (NoTie ray tmin) (l.leaves ++ r.leaves) := hp
    obtain ⟨hpl, hpr, hplr⟩ := List.pairwise_append.mp hp'
    simp only [BvhNode.hit]
    by_cases hbox : Aabb.hit
        (Aabb.surrounding l.boundingBoxInner r.boundingBoxInner) ray tmin
        (.fin T) = true
    · rw [if_pos hbox]
      rcases hl : BvhNode.hit l ray tmin (.fin T) with _ | rl
      · simp only [hl]
        have hLbf : bruteForce l.leaves ray tmin (.fin T) = none := by
          rw [← ihl gl hpl T]
          exact hl
        have hLnone := (bruteForce_eq_none_iff _ _ _ _).mp hLbf
        rcases hr2 : BvhNode.hit r ray tmin (.fin T) with _ | rr
        · simp only [hr2]
          have hRbf : bruteForce r.leaves ray tmin (.fin T) = none := by
            rw [← ihr gr hpr T]
            exact hr2
          have hRnone := (bruteForce_eq_none_iff _ _ _ _).mp hRbf
          symm
          rw [bruteForce_eq_none_iff]
          intro o ho
          rcases List.mem_append.mp ho with hm | hm
          · exact hLnone o hm
          · exact hRnone o hm
        · simp only [hr2]
          have hRbf : bruteForce r.leaves ray tmin (.fin T) = some rr := by
            rw [← ihr gr hpr T]
            exact hr2
          obtain ⟨⟨ob, hob, hhb⟩, hminb⟩ :=
            bruteForce_some_isMin _ _ _ _ _ hRbf
          symm
          apply isMin_bruteForce _ _ _ _ _ hp'
          refine ⟨⟨ob, List.mem_append_right _ hob, hhb⟩, ?_⟩
          intro o' ho' r' h'
          rcases List.mem_append.mp ho' with hm | hm
          · rw [hLnone o' hm] at h'
            exact absurd h' (by simp)
          · exact hminb o' hm r' h'
      · simp only [hl]
        have hLbf : bruteForce l.leaves ray tmin (.fin T) = some rl := by
          rw [← ihl gl hpl T]
          exact hl
        obtain ⟨⟨ol, hol, hhl⟩, hminl⟩ := bruteForce_some_isMin _ _ _ _ _ hLbf
        have hsoundl := good_leaves_sound ray tmin l gl ol hol
        have hrlT : rl.t ≤ T := (hsoundl.range T rl hhl).2
        rcases hr2 : BvhNode.hit r ray tmin (.fin rl.t) with _ | rr
        · simp only [hr2]
          have hRbf : bruteForce r.leaves ray tmin (.fin rl.t) = none := by
            rw [← ihr gr hpr rl.t]
            exact hr2
          have hRnone := (bruteForce_eq_none_iff _ _ _ _).mp hRbf
          symm
          apply isMin_bruteForce _ _ _ _ _ hp'
          refine ⟨⟨ol, List.mem_append_left _ hol, hhl⟩, ?_⟩
          intro o' ho' r' h'
          rcases List.mem_append.mp ho' with hm | hm
          · exact hminl o' hm r' h'
          · by_contra hnle
            push_neg at hnle
            have hsound' := good_leaves_sound ray tmin r gr o' hm
            have h'' := hsound'.shrink T rl.t r' hrlT h' hnle.le
            rw [hRnone o' hm] at h''
            exact absurd h'' (by simp)
        · simp only [hr2]
          have hRbf : bruteForce r.leaves ray tmin (.fin rl.t) = some rr := by
            rw [← ihr gr hpr rl.t]
            exact hr2
          obtain ⟨⟨orr, horr, hhr⟩, hminr⟩ :=
            bruteForce_some_isMin _ _ _ _ _ hRbf
          have hsoundr := good_leaves_sound ray tmin r gr orr horr
          have hrr_le : rr.t ≤ rl.t := (hsoundr.range rl.t rr hhr).2
          have hhrT : orr.hit ray tmin (.fin T) = some rr :=
            hsoundr.grow T rl.t rr hrlT hhr
          have hne : rl.t ≠ rr.t := hplr ol hol orr horr T T rl rr hhl hhrT
          have hlt : rr.t < rl.t :=
            lt_of_le_of_ne hrr_le (fun he => hne he.symm)
          symm
          apply isMin_bruteForce _ _ _ _ _ hp'
          refine ⟨⟨orr, List.mem_append_right _ horr, hhrT⟩, ?_⟩
          intro o' ho' r' h'
          rcases List.mem_append.mp ho' with hm | hm
          · exact hlt.le.trans (hminl o' hm r' h')
          · rcases le_or_lt r'.t rl.t with hle | hgt
            · have hsound' := good_leaves_sound ray tmin r gr o' hm
              have h'' := hsound'.shrink T rl.t r' hrlT h' hle
              exact hminr o' hm r' h''
            · exact (hlt.trans hgt).le
    · rw [if_neg hbox]
      symm
      rw [bruteForce_eq_none_iff]
      intro o ho
      rcases ho2 : o.hit ray tmin (.fin T) with _ | rcd
      · rfl
      · exfalso
        rcases List.mem_append.mp ho with hm | hm
        · have hsound := good_leaves_sound ray tmin l gl o hm
          have hsub := subBox_trans (good_leaf_subBox ray tmin l gl o hm)
            (subBox_surrounding_left l.boundingBoxInner r.boundingBoxInner)
          exact hbox (aabbHit_mono hsub (by simp) (hsound.cover T rcd ho2))
        · have hsound := good_leaves_sound ray tmin r gr o hm
          have hsub := subBox_trans (good_leaf_subBox ray tmin r gr o hm)
            (subBox_surrounding_right l.boundingBoxInner r.boundingBoxInner)
          exact hbox (aabbHit_mono hsub (by simp) (hsound.cover T rcd ho2))

-- ─── C1: BVH versus brute force ─────────────────────────────────────────────

/-- C1 counterexample: a scene of one infinite plane and a ray that hits the
plane at `t = 1` but passes entirely outside the plane's finite
`[-1e4, 1e4]³` bounding box.  The BVH prunes the leaf by its box test and
reports no hit, while the brute-force scan reports the hit at `t = 1`. -/
theorem c1_bvh_counterexample :
    bvhBuildHit [exPlaneH] farRay (1 / 1000) (.fin 100) = none ∧
    (bruteForce [exPlaneH] farRay (1 / 1000) (.fin 100)).map (·.t) =
      some 1 := by
  constructor
  · norm_num [bvhBuildHit, BvhNode.build, buildFuel, BvhNode.hit, Aabb.hit,
      slabFold, FP.inv, FP.mulQ, FP.rmax, FP.rmin, FP.le, FP.lt, Vec3.nth,
      exPlaneH, exPlane, Plane.new, Plane.boundingBox, Primitive.toHittable,
      Primitive.hit, Primitive.boundingBox, farRay, Vec3.normalized,
      Vec3.length, Vec3.lengthSquared, Vec3.divs, Rat.sqrt]
  · norm_num [bruteForce, exPlaneH, exPlane, Plane.new, Plane.hit,
      Primitive.toHittable, Primitive.hit, farRay, Vec3.normalized,
      Vec3.length, Vec3.lengthSquared, Vec3.divs, Vec3.sub, Vec3.dot,
      outOfRange, FP.lt, mkHitRecord, Rat.sqrt, Ray.at, Vec3.add, Vec3.smul,
      Vec3.neg]

/-- C1 (amended): restricted to primitives whose `hit` behaves as a sound
nearest-intersection query whose bounding box registers every hit
(`HitSound`), with no two primitives hitting at exactly the same parameter
(`NoTie`), building the BVH and querying it returns exactly the same
record — same `t`, point, normal, `front_face` (and material) — as the
brute-force linear scan over the list.  Unrestricted the claim is false:
see the plane counterexample, whose finite box hides far hits from the
box test. -/
theorem c1_bvh_matches_bruteforce (objs : List HittableI) (ray : Ray)
    (tmin tmax : ℚ) (hne : objs ≠ [])
    (hs : ∀ o ∈ objs, HitSound o ray tmin)
    (hp : List.Pairwise (NoTie ray tmin) objs) :
    bvhBuildHit objs ray tmin (.fin tmax) =
      bruteForce objs ray tmin (.fin tmax) := by
  obtain ⟨t, ht⟩ := Option.isSome_iff_exists.mp
    (buildFuel_isSome objs.length objs hne le_rfl)
  obtain ⟨hgood, hperm⟩ := buildFuel_good ray tmin objs.length objs t ht hs
  have hleafp : List.Pairwise (NoTie ray tmin) t.leaves :=
    (hperm.pairwise_iff (fun h => noTie_symm ray tmin h)).mpr hp
  unfold bvhBuildHit BvhNode.build
  rw [ht]
  show t.hit ray tmin (.fin tmax) = bruteForce objs ray tmin (.fin tmax)
  rw [good_hit_eq_bruteForce ray tmin t hgood hleafp tmax]
  exact bruteForce_perm t.leaves objs ray tmin tmax hperm hleafp

/-- An object whose hit along the fixed ray is a single intersection at
parameter `c` (reported exactly when `c ≤ t_max`) with a covering box is
`HitSound`. -/
theorem hitSound_of_form (o : HittableI) (ray : Ray) (tmin c : ℚ)
    (rec : HitRecord) (hrt : rec.t = c) (htm : tmin ≤ c)
    (hform : ∀ T, o.hit ray tmin (.fin T) =
      if c ≤ T then some rec else none)
    (hcov : ∀ T, c ≤ T → Aabb.hit o.bbox ray tmin (.fin T) = true) :
    HitSound o ray tmin := by
  refine ⟨?_, ?_, ?_, ?_⟩
  · intro T r h
    rw [hform T] at h
    split at h
    · next hc =>
      obtain rfl := Option.some.inj h
      rw [hrt]
      exact ⟨htm, hc⟩
    · exact absurd h (by simp)
  · intro T T' r hle h hrt'
    rw [hform T] at h
    rw [hform T']
    split at h
    · obtain rfl := Option.some.inj h
      rw [if_pos (hrt ▸ hrt')]
    · exact absurd h (by simp)
  · intro T T' r hle h
    rw [hform T'] at h
    rw [hform T]
    split at h
    · next hc =>
      obtain rfl := Option.some.inj h
      rw [if_pos (hc.trans hle)]
    · exact absurd h (by simp)
  · intro T r h
    rw [hform T] at h
    split at h
    · next hc => exact hcov T hc
    · exact absurd h (by simp)

/-- The first quad's hit along `axisRay` has exactly one intersection, at
`t = 3`. -/
theorem exQuad1H_hit_eq (T : ℚ) :
    exQuad1H.hit axisRay (1 / 1000) (.fin T) =
      if 3 ≤ T then some (mkHitRecord axisRay ⟨0, 0, 0⟩ ⟨0, 0, 1⟩ 3 exMat)
      else none := by
  by_cases hT : (3 : ℚ) ≤ T
  · rw [if_pos hT]
    have hT' : ¬ (T < 3) := not_lt.mpr hT
    norm_num [exQuad1H, exQuad1, Quad.new, Quad.hit, Primitive.toHittable,
      Primitive.hit, axisRay, outOfRange, FP.lt, Vec3.normalized, Vec3.length,
      Vec3.lengthSquared, Vec3.divs, Vec3.sub, Vec3.dot, Vec3.cross, Vec3.add,
      Vec3.smul, Vec3.neg, Ray.at, mkHitRecord, Rat.sqrt, hT', exMat]
  · rw [if_neg hT]
    have hT' : T < 3 := not_le.mp hT
    norm_num [exQuad1H, exQuad1, Quad.new, Quad.hit, Primitive.toHittable,
      Primitive.hit, axisRay, outOfRange, FP.lt, Vec3.normalized, Vec3.length,
      Vec3.lengthSquared, Vec3.divs, Vec3.sub, Vec3.dot, Vec3.cross, Vec3.add,
      Vec3.smul, Vec3.neg, Ray.at, mkHitRecord, Rat.sqrt, hT', exMat]

/-- The second quad's hit along `axisRay` has exactly one intersection, at
`t = 5`. -/
theorem exQuad2H_hit_eq (T : ℚ) :
    exQuad2H.hit axisRay (1 / 1000) (.fin T) =
      if 5 ≤ T then some (mkHitRecord axisRay ⟨0, 0, -2⟩ ⟨0, 0, 1⟩ 5
        (Metal.new ⟨1, 0, 0⟩ 0))
      else none := by
  by_cases hT : (5 : ℚ) ≤ T
  · rw [if_pos hT]
    have hT' : ¬ (T < 5) := not_lt.mpr hT
    norm_num [exQuad2H, exQuad2, Quad.new, Quad.hit, Primitive.toHittable,
      Primitive.hit, axisRay, outOfRange, FP.lt, Vec3.normalized, Vec3.length,
      Vec3.lengthSquared, Vec3.divs, Vec3.sub, Vec3.dot, Vec3.cross, Vec3.add,
      Vec3.smul, Vec3.neg, Ray.at, mkHitRecord, Rat.sqrt, hT']
  · rw [if_neg hT]
    have hT' : T < 5 := not_le.mp hT
    norm_num [exQuad2H, exQuad2, Quad.new, Quad.hit, Primitive.toHittable,
      Primitive.hit, axisRay, outOfRange, FP.lt, Vec3.normalized, Vec3.length,
      Vec3.lengthSquared, Vec3.divs, Vec3.sub, Vec3.dot, Vec3.cross, Vec3.add,
      Vec3.smul, Vec3.neg, Ray.at, mkHitRecord, Rat.sqrt, hT']

/-- The first quad's (padded) box registers every query interval that can
return its hit. -/
theorem exQuad1H_cover (T : ℚ) (hT : 3 ≤ T) :
    Aabb.hit exQuad1H.bbox axisRay (1 / 1000) (.fin T) = true := by
  have h1 : ¬ (T ≤ 1 / 1000) := by linarith
  by_cases h2 : (30001 / 10000 : ℚ) ≤ T
  · norm_num [exQuad1H, exQuad1, Quad.new, Quad.boundingBox,
      Primitive.toHittable, Primitive.boundingBox, axisRay, Aabb.hit,
      slabFold, FP.inv, FP.mulQ, FP.rmax, FP.rmin, FP.le, FP.lt, Vec3.nth,
      Vec3.normalized, Vec3.length, Vec3.lengthSquared, Vec3.divs, Vec3.sub,
      Vec3.dot, Vec3.cross, Vec3.add, Vec3.smul, Rat.sqrt, h1, h2]
  · have h3 : ¬ (T ≤ 29999 / 10000) := by linarith
    norm_num [exQuad1H, exQuad1, Quad.new, Quad.boundingBox,
      Primitive.toHittable, Primitive.boundingBox, axisRay, Aabb.hit,
      slabFold, FP.inv, FP.mulQ, FP.rmax, FP.rmin, FP.le, FP.lt, Vec3.nth,
      Vec3.normalized, Vec3.length, Vec3.lengthSquared, Vec3.divs, Vec3.sub,
      Vec3.dot, Vec3.cross, Vec3.add, Vec3.smul, Rat.sqrt, h1, h2, h3]

/-- The second quad's (padded) box registers every query interval that can
return its hit. -/
theorem exQuad2H_cover (T : ℚ) (hT : 5 ≤ T) :
    Aabb.hit exQuad2H.bbox axisRay (1 / 1000) (.fin T) = true := by
  have h1 : ¬ (T ≤ 1 / 1000) := by linarith
  by_cases h2 : (50001 / 10000 : ℚ) ≤ T
  · norm_num [exQuad2H, exQuad2, Quad.new, Quad.boundingBox,
      Primitive.toHittable, Primitive.boundingBox, axisRay, Aabb.hit,
      slabFold, FP.inv, FP.mulQ, FP.rmax, FP.rmin, FP.le, FP.lt, Vec3.nth,
      Vec3.normalized, Vec3.length, Vec3.lengthSquared, Vec3.divs, Vec3.sub,
      Vec3.dot, Vec3.cross, Vec3.add, Vec3.smul, Rat.sqrt, h1, h2]
  · have h3 : ¬ (T ≤ 49999 / 10000) := by linarith
    norm_num [exQuad2H, exQuad2, Quad.new, Quad.boundingBox,
      Primitive.toHittable, Primitive.boundingBox, axisRay, Aabb.hit,
      slabFold, FP.inv, FP.mulQ, FP.rmax, FP.rmin, FP.le, FP.lt, Vec3.nth,
      Vec3.normalized, Vec3.length, Vec3.lengthSquared, Vec3.divs, Vec3.sub,
      Vec3.dot, Vec3.cross, Vec3.add, Vec3.smul, Rat.sqrt, h1, h2, h3]

theorem exQuad1H_sound : HitSound exQuad1H axisRay (1 / 1000) :=
  hitSound_of_form exQuad1H axisRay (1 / 1000) 3
    (mkHitRecord axisRay ⟨0, 0, 0⟩ ⟨0, 0, 1⟩ 3 exMat) rfl (by norm_num)
    exQuad1H_hit_eq exQuad1H_cover

theorem exQuad2H_sound : HitSound exQuad2H axisRay (1 / 1000) :=
  hitSound_of_form exQuad2H axisRay (1 / 1000) 5
    (mkHitRecord axisRay ⟨0, 0, -2⟩ ⟨0, 0, 1⟩ 5 (Metal.new ⟨1, 0, 0⟩ 0)) rfl
    (by norm_num) exQuad2H_hit_eq exQuad2H_cover

theorem exQuads_sound_all :
    ∀ o ∈ ([exQuad1H, exQuad2H] : List HittableI),
      HitSound o axisRay (1 / 1000) := by
  intro o ho
  rcases List.mem_cons.mp ho with rfl | ho2
  · exact exQuad1H_sound
  · rw [List.mem_singleton.mp ho2]
    exact exQuad2H_sound

theorem exQuads_noTie : NoTie axisRay (1 / 1000) exQuad1H exQuad2H := by
  intro T T' r r' h1 h2
  rw [exQuad1H_hit_eq T] at h1
  rw [exQuad2H_hit_eq T'] at h2
  split at h1
  · split at h2
    · obtain rfl := Option.some.inj h1
      obtain rfl := Option.some.inj h2
      rw [mkHitRecord_t, mkHitRecord_t]
      norm_num
    · exact absurd h2 (by simp)
  · exact absurd h1 (by simp)

theorem exQuads_pairwise :
    List.Pairwise (NoTie axisRay (1 / 1000)) [exQuad1H, exQuad2H] := by
  refine List.pairwise_cons.mpr ⟨?_, ?_⟩
  · intro o' ho'
    rw [List.mem_singleton.mp ho']
    exact exQuads_noTie
  · exact List.pairwise_singleton _ _

/-- C1 witness: the amended theorem at the two-parallel-quads scene (hits
at `t = 3` and `t = 5` along the axis ray), with every hypothesis
discharged. -/
theorem c1_bvh_witness :
    (([exQuad1H, exQuad2H] : List HittableI) ≠ [] ∧
      (∀ o ∈ ([exQuad1H, exQuad2H] : List HittableI),
        HitSound o axisRay (1 / 1000)) ∧
      List.Pairwise (NoTie axisRay (1 / 1000)) [exQuad1H, exQuad2H]) ∧
    bvhBuildHit [exQuad1H, exQuad2H] axisRay (1 / 1000) (.fin 100) =
      bruteForce [exQuad1H, exQuad2H] axisRay (1 / 1000) (.fin 100) :=
  ⟨⟨by simp, exQuads_sound_all, exQuads_pairwise⟩,
    c1_bvh_matches_bruteforce [exQuad1H, exQuad2H] axisRay (1 / 1000) 100
      (by simp) exQuads_sound_all exQuads_pairwise⟩
